import Mathlib

/-!
# issue2md: URL classifier, resource model, configuration and command registry

A shallow embedding of `internal/parser/types.go` (the URL patterns and the
functions `SupportedTypes`, `Match` and `IsSupported` that scan them), of the
resource model and the errors of `internal/github`, of the two configuration
files of `internal/config` and of the command registry of `internal/cli`.

The strings that are matched or formatted are modelled as lists of runes
(`List Char`): the `regexp` package decodes its input as UTF-8, rune by rune (a
byte that is not valid UTF-8 reads as the rune U+FFFD), and the patterns below
only tell `/`, the ASCII digits and the runes of their literals from all other
runes. Strings that are only stored or compared are `String`s.

The regular expressions are modelled by the syntax tree that
`regexp.MustCompile` builds for them (package `regexp/syntax`, flags `Perl`)
and by a backtracking matcher with the leftmost-first semantics of the Go
`regexp` package.

Method receivers and pointer parameters are taken to be not `nil`.
-/

namespace Issue2md

/-! ## `internal/github/types.go`: resource types -/

/-- The Go type `ResourceType` is a string type. -/
abbrev ResourceType := String

def ResourceTypeIssue : ResourceType := "issue"
def ResourceTypePR : ResourceType := "pr"
def ResourceTypeDiscussion : ResourceType := "discussion"

/-! ## Regular expressions (the fragment of `regexp/syntax` used by the patterns) -/

/-- Syntax tree of a regular expression, one constructor per `regexp/syntax`
operator that occurs in the patterns of `SupportedPatterns`. -/
inductive Regexp where
  /-- Go `OpLiteral`: a fixed run of runes. -/
  | literal (runes : List Char)
  /-- Go `OpCharClass`: a bracket expression, `negated` for `[^...]`, with its
  inclusive rune ranges. -/
  | charClass (negated : Bool) (ranges : List (Char × Char))
  /-- Go `OpBeginText`: `^` without the multi-line flag. -/
  | beginText
  /-- Go `OpEndText`: `$` without the multi-line flag. -/
  | endText
  /-- Go `OpCapture`: a parenthesised group with its index. -/
  | capture (index : Nat) (sub : Regexp)
  /-- Go `OpQuest`: greedy `x?`. -/
  | quest (sub : Regexp)
  /-- Go `OpPlus`: greedy `x+`. -/
  | plus (sub : Regexp)
  /-- Go `OpConcat`, of two expressions. -/
  | concat (left right : Regexp)
  deriving DecidableEq, Repr

/-- Whether a rune belongs to a bracket expression. -/
def classMatches (negated : Bool) (ranges : List (Char × Char)) (c : Char) : Bool :=
  negated != ranges.any (fun r => decide (r.1 ≤ c) && decide (c ≤ r.2))

/-- A thread of the matcher: the number of runes consumed so far, the runes
still to read, and the text of the groups closed so far (latest first). -/
structure MState where
  pos : Nat
  rest : List Char
  caps : List (Nat × List Char)
  deriving DecidableEq, Repr

/-- Strip a literal from the front of the input. -/
def dropLiteral : List Char → List Char → Option (List Char)
  | [], cs => some cs
  | _ :: _, [] => none
  | l :: ls, c :: cs => if l = c then dropLiteral ls cs else none

/-- The iterations of a greedy `x+`, where `step` runs `x` once: a further
iteration is tried before stopping, and only after the last one consumed
input. The fuel bounds the number of iterations. -/
def plusLoop (step : MState → List MState) : Nat → MState → List MState
  | 0, _ => []
  | fuel + 1, st =>
    (step st).flatMap fun st1 =>
      (if st1.rest.length < st.rest.length then plusLoop step fuel st1 else []) ++ [st1]

/-- All the ways the expression matches at the given thread, in the order of
preference of a backtracking matcher (leftmost-first, greedy operators). -/
def run : Regexp → MState → List MState
  | .literal runes, st =>
    match dropLiteral runes st.rest with
    | some cs => [{ st with pos := st.pos + runes.length, rest := cs }]
    | none => []
  | .charClass negated ranges, st =>
    match st.rest with
    | c :: cs => if classMatches negated ranges c then [{ st with pos := st.pos + 1, rest := cs }] else []
    | [] => []
  | .beginText, st => if st.pos = 0 then [st] else []
  | .endText, st => if st.rest = [] then [st] else []
  | .capture index sub, st =>
    (run sub st).map fun st1 =>
      { st1 with caps := (index, st.rest.take (st1.pos - st.pos)) :: st1.caps }
  | .quest sub, st => run sub st ++ [st]
  | .plus sub, st => plusLoop (run sub) (st.rest.length + 1) st
  | .concat left right, st => (run left st).flatMap (run right)

/-- The leftmost match: the first offset at which the expression matches,
with the preferred thread there. Returns the offset and the final thread. -/
def search (re : Regexp) : Nat → List Char → Option (Nat × MState)
  | pos, [] => ((run re ⟨pos, [], []⟩).head?).map fun st => (pos, st)
  | pos, c :: cs =>
    match (run re ⟨pos, c :: cs, []⟩).head? with
    | some st => some (pos, st)
    | none => search re (pos + 1) cs

/-- The text of group `i` in a finished thread (empty when the group did not
take part in the match). -/
def groupText (caps : List (Nat × List Char)) (i : Nat) : List Char :=
  match caps.find? (fun e => e.1 == i) with
  | some e => e.2
  | none => []

/-- Go `(*Regexp).MatchString`: whether the text contains any match. -/
def Regexp.MatchString (re : Regexp) (s : List Char) : Bool :=
  (search re 0 s).isSome

/-- Go `(*Regexp).FindStringSubmatch` for an expression with `n` groups: the
text of the leftmost match followed by the text of groups `1..n`, or `none`
(Go: `nil`) when there is no match. -/
def Regexp.FindStringSubmatch (re : Regexp) (n : Nat) (s : List Char) : Option (List (List Char)) :=
  (search re 0 s).map fun r =>
    ((s.drop r.1).take (r.2.pos - r.1)) :: (List.range n).map fun i => groupText r.2.caps (i + 1)

/-! ## `internal/parser/types.go` -/

/-- Go `URLPattern`: a compiled pattern, the resource type it identifies and a
description. -/
structure URLPattern where
  Pattern : Regexp
  Type' : ResourceType
  Description : String
  deriving DecidableEq, Repr

/-- The class `[^/]`. -/
def notSlash : Regexp := .charClass true [('/', '/')]

/-- The class `\d` (ASCII digits only in Go). -/
def digit : Regexp := .charClass false [('0', '9')]

/-- The expression `^https?://github\.com/([^/]+)/([^/]+)/issues/(\d+)$`. -/
def issueRegexp : Regexp :=
  .concat .beginText <| .concat (.literal "http".toList) <| .concat (.quest (.literal "s".toList)) <|
  .concat (.literal "://github.com/".toList) <| .concat (.capture 1 (.plus notSlash)) <|
  .concat (.literal "/".toList) <| .concat (.capture 2 (.plus notSlash)) <|
  .concat (.literal "/issues/".toList) <| .concat (.capture 3 (.plus digit)) .endText

/-- The expression `^https?://github\.com/([^/]+)/([^/]+)/pull/(\d+)$`. -/
def pullRegexp : Regexp :=
  .concat .beginText <| .concat (.literal "http".toList) <| .concat (.quest (.literal "s".toList)) <|
  .concat (.literal "://github.com/".toList) <| .concat (.capture 1 (.plus notSlash)) <|
  .concat (.literal "/".toList) <| .concat (.capture 2 (.plus notSlash)) <|
  .concat (.literal "/pull/".toList) <| .concat (.capture 3 (.plus digit)) .endText

/-- The expression `^https?://github\.com/([^/]+)/([^/]+)/discussions/(\d+)$`. -/
def discussionRegexp : Regexp :=
  .concat .beginText <| .concat (.literal "http".toList) <| .concat (.quest (.literal "s".toList)) <|
  .concat (.literal "://github.com/".toList) <| .concat (.capture 1 (.plus notSlash)) <|
  .concat (.literal "/".toList) <| .concat (.capture 2 (.plus notSlash)) <|
  .concat (.literal "/discussions/".toList) <| .concat (.capture 3 (.plus digit)) .endText

/-- Go `SupportedPatterns`: all supported URL patterns, in declaration order. -/
def SupportedPatterns : List URLPattern :=
  [ { Pattern := issueRegexp, Type' := ResourceTypeIssue, Description := "GitHub Issue URL" },
    { Pattern := pullRegexp, Type' := ResourceTypePR, Description := "GitHub Pull Request URL" },
    { Pattern := discussionRegexp, Type' := ResourceTypeDiscussion,
      Description := "GitHub Discussion URL" } ]

/-- The loop of `SupportedTypes`: `types[i] = p.Type` for each pattern. -/
def fillTypes : List URLPattern → Nat → List ResourceType → List ResourceType
  | [], _, types => types
  | p :: ps, i, types => fillTypes ps (i + 1) (types.set i p.Type')

/-- Go `SupportedTypes`: a slice of `len(SupportedPatterns)` entries, filled by
index from the patterns. -/
def SupportedTypes : List ResourceType :=
  fillTypes SupportedPatterns 0 (List.replicate SupportedPatterns.length "")

/-- The loop of `Match` over a list of patterns. -/
def matchLoop : List URLPattern → List Char → Option URLPattern
  | [], _ => none
  | p :: ps, url => if p.Pattern.MatchString url then some p else matchLoop ps url

/-- Go `Match`: the first pattern that matches the URL, `none` (Go: `nil`) if no
pattern matches. -/
def Match (url : List Char) : Option URLPattern :=
  matchLoop SupportedPatterns url

/-- Go `IsSupported`: whether `Match` finds a pattern. -/
def IsSupported (url : List Char) : Bool :=
  (Match url).isSome

/-- The field `ResourceURL.Number` is an `int64`: an integer from `-2^63` to `2^63 - 1`. -/
abbrev GoInt64 := { i : Int // -(2 : Int) ^ 63 ≤ i ∧ i < (2 : Int) ^ 63 }

/-- Go `ResourceURL`: a parsed GitHub resource URL. -/
structure ResourceURL where
  OriginalURL : List Char
  Owner : List Char
  Repo : List Char
  Number : GoInt64
  Type' : ResourceType
  IsValid : Bool
  deriving DecidableEq

/-- The number a run of decimal digits denotes: the base 10 loop
`n = n*10 + (c - '0')` of `strconv`, without a range check. -/
def digitsValue (ds : List Char) : Nat :=
  ds.foldl (fun acc c => acc * 10 + (c.toNat - '0'.toNat)) 0

/-- The value of `strconv.ParseInt(ds, 10, 64)` on a run of decimal digits:
`none` stands for the range error on a number above `2^63 - 1`. -/
def parseInt64 (ds : List Char) : Option GoInt64 :=
  if h : (digitsValue ds : Int) < (2 : Int) ^ 63 then
    some ⟨(digitsValue ds : Int), by constructor <;> omega⟩
  else none

/-- Modelled from the spec: `classify` (the function of the parser package
that builds a `ResourceURL`, which is not among the source files). It invokes
`Match`; on success it extracts the three capture groups (owner, repo, number)
from the matched pattern, parses the number as an integer and returns a
`ResourceURL` with validity true and the kind of the pattern; on no match it
returns a `ResourceURL` with validity false and empty or zero remaining fields.
The spec does not say what is returned when the digits do not fit the `int64`
field `Number`: the model returns `none` there and nowhere else. -/
def classify (url : List Char) : Option ResourceURL :=
  match Match url with
  | none =>
    some { OriginalURL := [], Owner := [], Repo := [], Number := ⟨0, by decide⟩, Type' := "",
           IsValid := false }
  | some p =>
    match p.Pattern.FindStringSubmatch 3 url with
    | some [_, owner, repo, number] =>
      (parseInt64 number).map fun n =>
        { OriginalURL := url, Owner := owner, Repo := repo, Number := n, Type' := p.Type',
          IsValid := true }
    | _ => none

/-- The URL `https://github.com/{owner}/{repo}/{kind}/{n}` with `n` written in
decimal. -/
def resourceURL (kind owner repo : List Char) (n : Nat) : List Char :=
  "https://github.com/".toList ++ (owner ++ '/' :: (repo ++ '/' :: (kind ++ '/' :: Nat.toDigits 10 n)))

/-- Whether the expression matches the entire text: a thread started at
offset 0 ends at the end of the text. -/
def Regexp.matchesWhole (re : Regexp) (s : List Char) : Bool :=
  (run re ⟨0, s, []⟩).any fun st => st.rest.isEmpty

/-- On `url`, `Match` returns the pattern `p`, whose type is `ty`; the three
capture groups of `p` on `url` are `owner`, `repo` and the decimal digits of
`n`, which denote `n`; and when `n` is in the range of the `int64` field
`Number`, the classification is valid with kind `ty` and the same owner, repo
and number. -/
def ClassifiedAs (url : List Char) (p : URLPattern) (ty : ResourceType) (owner repo : List Char)
    (n : Nat) : Prop :=
  Match url = some p ∧ p.Type' = ty ∧
    p.Pattern.FindStringSubmatch 3 url = some [url, owner, repo, Nat.toDigits 10 n] ∧
    digitsValue (Nat.toDigits 10 n) = n ∧
    ((n : Int) < (2 : Int) ^ 63 →
      ∃ u, classify url = some u ∧ u.IsValid = true ∧ u.Type' = ty ∧ u.OriginalURL = url ∧
        u.Owner = owner ∧ u.Repo = repo ∧ u.Number.val = (n : Int))

/-! ## The shape of the supported URLs -/

/-- The common form of the three expressions of `SupportedPatterns`, with the
literal path segment as parameter (used to reason about the three at once). -/
def urlRegexp (kind : List Char) : Regexp :=
  .concat .beginText <| .concat (.literal "http".toList) <| .concat (.quest (.literal "s".toList)) <|
  .concat (.literal "://github.com/".toList) <| .concat (.capture 1 (.plus notSlash)) <|
  .concat (.literal "/".toList) <| .concat (.capture 2 (.plus notSlash)) <|
  .concat (.literal ('/' :: kind ++ ['/'])) <| .concat (.capture 3 (.plus digit)) .endText

/-- The string `s` is `http://github.com/` or `https://github.com/` followed by
`owner/repo/kind/num`, nothing else, where `owner` and `repo` are non-empty and
free of `/` and `num` is a non-empty run of ASCII decimal digits. -/
def IsResourceURL (kind s owner repo num : List Char) : Prop :=
  (s = "http://github.com/".toList ++ (owner ++ '/' :: (repo ++ '/' :: (kind ++ '/' :: num))) ∨
    s = "https://github.com/".toList ++ (owner ++ '/' :: (repo ++ '/' :: (kind ++ '/' :: num)))) ∧
  owner ≠ [] ∧ '/' ∉ owner ∧ repo ≠ [] ∧ '/' ∉ repo ∧ num ≠ [] ∧ ∀ c ∈ num, c.isDigit = true

/-- The first entry of `SupportedPatterns`. -/
def issuePattern : URLPattern :=
  { Pattern := issueRegexp, Type' := ResourceTypeIssue, Description := "GitHub Issue URL" }

/-- The second entry of `SupportedPatterns`. -/
def pullPattern : URLPattern :=
  { Pattern := pullRegexp, Type' := ResourceTypePR, Description := "GitHub Pull Request URL" }

/-- The third entry of `SupportedPatterns`. -/
def discussionPattern : URLPattern :=
  { Pattern := discussionRegexp, Type' := ResourceTypeDiscussion, Description := "GitHub Discussion URL" }

/-- The literal path segments of the three patterns, in declaration order. -/
def kindSegments : List (List Char) := ["issues".toList, "pull".toList, "discussions".toList]

/-- The string has the shape of the issue pattern. -/
def IsIssueURL (s : List Char) : Prop := ∃ o r n, IsResourceURL "issues".toList s o r n

/-- The string has the shape of the pull request pattern. -/
def IsPullURL (s : List Char) : Prop := ∃ o r n, IsResourceURL "pull".toList s o r n

/-- The string has the shape of the discussion pattern. -/
def IsDiscussionURL (s : List Char) : Prop := ∃ o r n, IsResourceURL "discussions".toList s o r n

/-! ## `internal/github/types.go`: the resource model

Fields that hold text are `String`s; `int` and `int64` fields are integers (no
arithmetic is done on them); a pointer field that may be `nil` is an `Option`.
Every field has the zero value of its Go type as default, so that a structure
instance with omitted fields reads as the Go composite literal. -/

/-- Go `time.Time`, kept as an instant in nanoseconds: the model only copies it. -/
structure Time where
  nanos : Int := 0
  deriving DecidableEq, Repr

/-- Go `User`: a GitHub user. -/
structure User where
  Login : String := ""
  AvatarURL : String := ""
  URL : String := ""
  deriving DecidableEq, Repr

/-- Go `Reactions`: reaction counts for a resource. -/
structure Reactions where
  ThumbsUp : Int := 0
  ThumbsDown : Int := 0
  Laugh : Int := 0
  Hooray : Int := 0
  Confused : Int := 0
  Heart : Int := 0
  Rocket : Int := 0
  Eyes : Int := 0
  TotalCount : Int := 0
  deriving DecidableEq, Repr

/-- Go `Comment`: a comment on an Issue, PR or Discussion. -/
structure Comment where
  ID : Int := 0
  Author : User := {}
  Body : String := ""
  CreatedAt : Time := {}
  UpdatedAt : Time := {}
  Reactions : Reactions := {}
  IsAnswer : Bool := false
  ReplyTo : Int := 0
  deriving DecidableEq, Repr

/-- Go `Label`: an issue or PR label. -/
structure Label where
  Name : String := ""
  Description : String := ""
  Color : String := ""
  deriving DecidableEq, Repr

/-- Go `Milestone`: a GitHub milestone. -/
structure Milestone where
  Title : String := ""
  Description : String := ""
  State : String := ""
  DueDate : Time := {}
  deriving DecidableEq, Repr

/-- Go `DiscussionCategory`: a discussion category. -/
structure DiscussionCategory where
  ID : Int := 0
  Slug : String := ""
  Name : String := ""
  Description : String := ""
  deriving DecidableEq, Repr

/-- The Go type `ResourceStatus` is a string type. -/
abbrev ResourceStatus := String

def StatusOpen : ResourceStatus := "open"
def StatusClosed : ResourceStatus := "closed"
def StatusMerged : ResourceStatus := "merged"

/-- Go `Issue`: a GitHub Issue. -/
structure Issue where
  Number : Int := 0
  Title : String := ""
  Body : String := ""
  Author : User := {}
  State : ResourceStatus := ""
  CreatedAt : Time := {}
  UpdatedAt : Time := {}
  ClosedAt : Option Time := none
  Comments : List Comment := []
  Reactions : Reactions := {}
  Labels : List Label := []
  Milestone : Option Milestone := none
  TotalComments : Int := 0
  URL : String := ""
  RepositoryURL : String := ""
  deriving DecidableEq, Repr

def Issue.GetType (_i : Issue) : ResourceType := ResourceTypeIssue
def Issue.GetStatus (i : Issue) : ResourceStatus := i.State
def Issue.GetTitle (i : Issue) : String := i.Title
def Issue.GetAuthor (i : Issue) : User := i.Author
def Issue.GetCreatedAt (i : Issue) : Time := i.CreatedAt
def Issue.GetUpdatedAt (i : Issue) : Time := i.UpdatedAt
def Issue.GetBody (i : Issue) : String := i.Body
def Issue.GetComments (i : Issue) : List Comment := i.Comments
def Issue.GetReactions (i : Issue) : Issue2md.Reactions := i.Reactions
def Issue.GetCommentCount (i : Issue) : Int := i.TotalComments

/-- Go `PullRequest`: a GitHub Pull Request. -/
structure PullRequest where
  Number : Int := 0
  Title : String := ""
  Body : String := ""
  Author : User := {}
  State : ResourceStatus := ""
  CreatedAt : Time := {}
  UpdatedAt : Time := {}
  ClosedAt : Option Time := none
  MergedAt : Option Time := none
  Comments : List Comment := []
  Reactions : Reactions := {}
  Labels : List Label := []
  Milestone : Option Milestone := none
  TotalComments : Int := 0
  URL : String := ""
  RepositoryURL : String := ""
  IsDraft : Bool := false
  Mergeable : Bool := false
  Additions : Int := 0
  Deletions : Int := 0
  deriving DecidableEq, Repr

def PullRequest.GetType (_p : PullRequest) : ResourceType := ResourceTypePR
def PullRequest.GetStatus (p : PullRequest) : ResourceStatus := p.State
def PullRequest.GetTitle (p : PullRequest) : String := p.Title
def PullRequest.GetAuthor (p : PullRequest) : User := p.Author
def PullRequest.GetCreatedAt (p : PullRequest) : Time := p.CreatedAt
def PullRequest.GetUpdatedAt (p : PullRequest) : Time := p.UpdatedAt
def PullRequest.GetBody (p : PullRequest) : String := p.Body
def PullRequest.GetComments (p : PullRequest) : List Comment := p.Comments
def PullRequest.GetReactions (p : PullRequest) : Issue2md.Reactions := p.Reactions
def PullRequest.GetCommentCount (p : PullRequest) : Int := p.TotalComments

/-- Go `Discussion`: a GitHub Discussion. -/
structure Discussion where
  Number : Int := 0
  Title : String := ""
  Body : String := ""
  Author : User := {}
  State : ResourceStatus := ""
  CreatedAt : Time := {}
  UpdatedAt : Time := {}
  ClosedAt : Option Time := none
  Comments : List Comment := []
  Reactions : Reactions := {}
  TotalComments : Int := 0
  URL : String := ""
  RepositoryURL : String := ""
  Category : DiscussionCategory := {}
  IsAnswered : Bool := false
  AnswerComment : Option Comment := none
  deriving DecidableEq, Repr

def Discussion.GetType (_d : Discussion) : ResourceType := ResourceTypeDiscussion
def Discussion.GetStatus (d : Discussion) : ResourceStatus := d.State
def Discussion.GetTitle (d : Discussion) : String := d.Title
def Discussion.GetAuthor (d : Discussion) : User := d.Author
def Discussion.GetCreatedAt (d : Discussion) : Time := d.CreatedAt
def Discussion.GetUpdatedAt (d : Discussion) : Time := d.UpdatedAt
def Discussion.GetBody (d : Discussion) : String := d.Body
def Discussion.GetComments (d : Discussion) : List Comment := d.Comments
def Discussion.GetReactions (d : Discussion) : Issue2md.Reactions := d.Reactions
def Discussion.GetCommentCount (d : Discussion) : Int := d.TotalComments

/-! ## `internal/github/errors.go` -/

/-- Go `fmt.Sprintf` on a format whose verbs are `%s` and on string operands:
each `%s` is replaced by the next operand, copied unchanged, and every other
rune of the format is copied. A `%s` without operand prints `%!s(MISSING)`. -/
def Sprintf : List Char → List (List Char) → List Char
  | [], _ => []
  | '%' :: 's' :: fmt, a :: rest => a ++ Sprintf fmt rest
  | '%' :: 's' :: fmt, [] => "%!s(MISSING)".toList ++ Sprintf fmt []
  | c :: fmt, args => c :: Sprintf fmt args

/-- Go `ErrUnsupportedURL`: returned when a URL is valid but not a supported
GitHub resource type. -/
structure ErrUnsupportedURL where
  URL : List Char := []
  deriving DecidableEq, Repr

/-- Go `(*ErrUnsupportedURL).Error`: the error message. -/
def ErrUnsupportedURL.Error (e : ErrUnsupportedURL) : List Char :=
  Sprintf "unsupported URL type: %s (supported: issues, pull requests, discussions)".toList [e.URL]

/-- The kinds that the message of `ErrUnsupportedURL` lists, in order. -/
def listedKinds : List (List Char) := ["issues".toList, "pull requests".toList, "discussions".toList]

/-! ## `internal/config/types.go` -/

namespace ConfigTypes

/-- Go `OutputConfig`: the output configuration. -/
structure OutputConfig where
  Format : String := ""
  Filename : String := ""
  Destination : String := ""
  Overwrite : Bool := false
  deriving DecidableEq, Repr

/-- Go `ParserConfig`: the parser configuration. -/
structure ParserConfig where
  IncludeComments : Bool := false
  IncludeMetadata : Bool := false
  IncludeTimestamps : Bool := false
  IncludeUserLinks : Bool := false
  EmojisEnabled : Bool := false
  PreserveLineBreaks : Bool := false
  deriving DecidableEq, Repr

/-- Go `Config` of `types.go`: GitHub token, output and parser configuration. -/
structure Config where
  GitHubToken : String := ""
  Output : OutputConfig := {}
  Parser : ParserConfig := {}
  deriving DecidableEq, Repr

/-- Go `ValidationError`: a configuration validation error. -/
structure ValidationError where
  Field : String := ""
  Message : String := ""
  deriving DecidableEq, Repr

/-- Go `(*ValidationError).Error`: the message. -/
def ValidationError.Error (e : ValidationError) : String := e.Message

/-- Go `DefaultConfig` of `types.go`: the default configuration. -/
def DefaultConfig : Config :=
  { Output := { Format := "markdown", Destination := "output", Overwrite := false },
    Parser := { IncludeComments := true, IncludeMetadata := true, IncludeTimestamps := true,
                IncludeUserLinks := true, EmojisEnabled := true, PreserveLineBreaks := true } }

/-- Go `(*Config).Validate`: `none` stands for the `nil` error. -/
def Config.Validate (c : Config) : Option ValidationError :=
  if c.GitHubToken = "" then
    some { Field := "github_token", Message := "GitHub token is required" }
  else if c.Output.Format = "" then
    some { Field := "output.format", Message := "Output format is required" }
  else none

end ConfigTypes

/-! ## `internal/config/config.go` -/

namespace ConfigMain

/-- Go `time.Duration`: an `int64` count of nanoseconds. -/
abbrev Duration := Int

/-- Go `time.Second`. -/
def Second : Duration := 1000000000

/-- Go `http.Client`, of which the configuration sets the timeout only. -/
structure HTTPClient where
  Timeout : Duration := 0
  deriving DecidableEq, Repr

/-- Go `ConvertOptions`: how resources are converted to Markdown. -/
structure ConvertOptions where
  EnableReactions : Bool := false
  EnableUserLinks : Bool := false
  OutputFile : String := ""
  deriving DecidableEq, Repr

/-- Go `Config` of `config.go`: the application configuration. -/
structure Config where
  GitHubToken : String := ""
  UserAgent : String := ""
  APITimeout : Duration := 0
  HTTPClient : Option HTTPClient := none
  Options : ConvertOptions := {}
  deriving DecidableEq, Repr

/-- Go `DefaultConfig` of `config.go`: a configuration with default values. -/
def DefaultConfig : Config :=
  { UserAgent := "issue2md",
    APITimeout := 30 * Second,
    HTTPClient := some { Timeout := 30 * Second },
    Options := { EnableReactions := false, EnableUserLinks := false, OutputFile := "" } }

/-- Go `(*Config).APITimeoutOrDefault`: the configured timeout or the default. -/
def Config.APITimeoutOrDefault (c : Config) : Duration :=
  if c.APITimeout > 0 then c.APITimeout else 30 * Second

end ConfigMain

/-! ## `internal/cli/types.go` -/

namespace Cli

/-- Go `Command`: a command definition. The types of `Flags` (a `*flag.FlagSet`)
and of `Run` (a function) are parameters: the registry never looks at them. -/
structure Command (F R : Type) where
  Name : String
  Description : String
  Flags : F
  Run : R

/-- The Go index expression `m[k]` on a `map[string]V`, kept as an association
list: the value stored under the key, if any. -/
def mapGet {V : Type} (m : List (String × V)) (k : String) : Option V :=
  match m with
  | [] => none
  | e :: rest => if e.1 = k then some e.2 else mapGet rest k

/-- The Go assignment `m[k] = v` on a `map[string]V`: the entry of the key is
replaced, or added when the key is new. -/
def mapSet {V : Type} (m : List (String × V)) (k : String) (v : V) : List (String × V) :=
  match m with
  | [] => [(k, v)]
  | e :: rest => if e.1 = k then (k, v) :: rest else e :: mapSet rest k v

/-- A read `m[k]` of a Go map that may be `nil` (`none`): a `nil` map reads as
an empty one. -/
def mapRead {V : Type} (m : Option (List (String × V))) (k : String) : Option V :=
  match m with
  | none => none
  | some entries => mapGet entries k

/-- Go `CommandRegistry`: the registered commands by name. The map is `none`
when it is `nil`, as in the zero value of the struct. A registered `*Command` is
kept as the command it points to. -/
structure CommandRegistry (F R : Type) where
  commands : Option (List (String × Command F R)) := none

/-- Go `NewCommandRegistry`: a registry with an empty map. -/
def NewCommandRegistry {F R : Type} : CommandRegistry F R :=
  { commands := some [] }

/-- Go `(*CommandRegistry).Register`, on a command that is not `nil`: the
registry afterwards and the error (`none` for a `nil` error). The result is
`none` when the call panics, which the assignment to an entry of a `nil` map
does. -/
def CommandRegistry.Register {F R : Type} (cr : CommandRegistry F R) (cmd : Command F R) :
    Option (CommandRegistry F R × Option (List Char)) :=
  match mapRead cr.commands cmd.Name with
  | some _ => some (cr, some (Sprintf "command %s already registered".toList [cmd.Name.toList]))
  | none =>
    match cr.commands with
    | none => none
    | some entries => some ({ commands := some (mapSet entries cmd.Name cmd) }, none)

/-- Go `(*CommandRegistry).Get`: the command and true, or `nil` and false. -/
def CommandRegistry.Get {F R : Type} (cr : CommandRegistry F R) (name : String) :
    Option (Command F R) × Bool :=
  match mapRead cr.commands name with
  | some cmd => (some cmd, true)
  | none => (none, false)

/-- Go `(*CommandRegistry).List`: the registered commands. The order of a Go
`range` over a map is not specified; the model lists them in the order of the
association list. -/
def CommandRegistry.List {F R : Type} (cr : CommandRegistry F R) : List (Command F R) :=
  match cr.commands with
  | none => []
  | some entries => entries.map fun e => e.2

end Cli

/-! ## The matcher on the operators of the patterns -/

theorem dropLiteral_eq_some (l cs t : List Char) : dropLiteral l cs = some t ↔ cs = l ++ t := by
  induction l generalizing cs with
  | nil => simp [dropLiteral, eq_comm]
  | cons a l ih =>
    cases cs with
    | nil => simp [dropLiteral]
    | cons c cs =>
      by_cases h : a = c
      · subst h; simp [dropLiteral, ih]
      · have h2 : ¬ c = a := fun e => h e.symm
        simp [dropLiteral, h, h2]

theorem mem_run_literal (l : List Char) (st r : MState) :
    r ∈ run (.literal l) st ↔ ∃ t, st.rest = l ++ t ∧ r = ⟨st.pos + l.length, t, st.caps⟩ := by
  unfold run
  cases h : dropLiteral l st.rest with
  | none =>
    simp only [List.not_mem_nil, false_iff]
    rintro ⟨t, ht, -⟩
    rw [← dropLiteral_eq_some] at ht
    simp [ht] at h
  | some cs =>
    rw [dropLiteral_eq_some] at h
    simp only [List.mem_singleton]
    constructor
    · rintro rfl; exact ⟨cs, h, rfl⟩
    · rintro ⟨t, ht, rfl⟩
      rw [h] at ht
      rw [List.append_cancel_left ht]

theorem mem_run_beginText (st r : MState) : r ∈ run .beginText st ↔ st.pos = 0 ∧ r = st := by
  unfold run; split <;> simp_all

theorem mem_run_endText (st r : MState) : r ∈ run .endText st ↔ st.rest = [] ∧ r = st := by
  unfold run; split <;> simp_all

theorem mem_run_concat (a b : Regexp) (st r : MState) :
    r ∈ run (.concat a b) st ↔ ∃ m, m ∈ run a st ∧ r ∈ run b m := by
  simp [run, List.mem_flatMap]

theorem mem_run_quest (a : Regexp) (st r : MState) :
    r ∈ run (.quest a) st ↔ r ∈ run a st ∨ r = st := by
  simp [run]

theorem mem_run_charClass (n : Bool) (rs : List (Char × Char)) (st r : MState) :
    r ∈ run (.charClass n rs) st ↔
      ∃ c t, st.rest = c :: t ∧ classMatches n rs c = true ∧ r = ⟨st.pos + 1, t, st.caps⟩ := by
  unfold run
  cases h : st.rest with
  | nil => simp
  | cons c cs =>
    by_cases hc : classMatches n rs c = true
    · simp only [hc, if_true, List.mem_singleton]
      constructor
      · rintro rfl; exact ⟨c, cs, rfl, hc, rfl⟩
      · rintro ⟨c1, t, ht, -, rfl⟩
        simp only [List.cons.injEq] at ht
        rw [ht.2]
    · simp only [if_neg hc, List.not_mem_nil, false_iff]
      rintro ⟨c1, t, ht, h1, -⟩
      simp only [List.cons.injEq] at ht
      rw [ht.1] at hc
      exact hc h1

/-- The threads of `[...]+`: every non-empty prefix of the input made of runes
of the class. -/
theorem mem_plusLoop_charClass (n : Bool) (rs : List (Char × Char)) (fuel : Nat) (st r : MState) :
    r ∈ plusLoop (run (.charClass n rs)) fuel st ↔
      ∃ w t, w ≠ [] ∧ w.length ≤ fuel ∧ st.rest = w ++ t ∧ (∀ c ∈ w, classMatches n rs c = true) ∧
        r = ⟨st.pos + w.length, t, st.caps⟩ := by
  induction fuel generalizing st r with
  | zero =>
    simp only [plusLoop, List.not_mem_nil, false_iff]
    rintro ⟨w, t, hw, hl, -⟩
    exact hw (List.length_eq_zero.mp (Nat.le_zero.mp hl))
  | succ fuel ih =>
    simp only [plusLoop, List.mem_flatMap, mem_run_charClass, List.mem_append, List.mem_singleton]
    constructor
    · rintro ⟨m, ⟨c, t, hrest, hc, rfl⟩, h | h⟩
      · simp only [hrest, List.length_cons, Nat.lt_succ_self, if_true] at h
        rw [ih] at h
        obtain ⟨w, t1, hw, hl, ht, hall, rfl⟩ := h
        simp only at ht
        refine ⟨c :: w, t1, by simp, by simp [hl], by simp [hrest, ht], ?_, ?_⟩
        · intro d hd
          rcases List.mem_cons.mp hd with rfl | hd
          · exact hc
          · exact hall d hd
        · simp only [List.length_cons, MState.mk.injEq, and_true]
          omega
      · subst h
        exact ⟨[c], t, by simp, by simp, by simp [hrest], by simpa using hc, by simp⟩
    · rintro ⟨w, t, hw, hl, hrest, hall, rfl⟩
      cases w with
      | nil => exact absurd rfl hw
      | cons c w =>
        refine ⟨⟨st.pos + 1, w ++ t, st.caps⟩, ⟨c, w ++ t, by simpa using hrest, hall c (by simp), rfl⟩, ?_⟩
        by_cases hw2 : w = []
        · subst hw2; right; simp
        · left
          simp only [hrest, List.cons_append, List.length_cons, Nat.lt_succ_self, if_true]
          rw [ih]
          refine ⟨w, t, hw2, by simpa using hl, rfl, fun d hd => hall d (by simp [hd]), ?_⟩
          simp only [List.length_cons, MState.mk.injEq, and_true]
          omega

theorem run_capture (i : Nat) (a : Regexp) (st : MState) :
    run (.capture i a) st =
      (run a st).map fun st1 => { st1 with caps := (i, st.rest.take (st1.pos - st.pos)) :: st1.caps } := by
  rw [run]

theorem run_plus (a : Regexp) (st : MState) :
    run (.plus a) st = plusLoop (run a) (st.rest.length + 1) st := by
  rw [run]

theorem mem_run_capture_plus (i : Nat) (n : Bool) (rs : List (Char × Char)) (st r : MState) :
    r ∈ run (.capture i (.plus (.charClass n rs))) st ↔
      ∃ w t, w ≠ [] ∧ st.rest = w ++ t ∧ (∀ c ∈ w, classMatches n rs c = true) ∧
        r = ⟨st.pos + w.length, t, (i, w) :: st.caps⟩ := by
  rw [run_capture, run_plus]
  simp only [List.mem_map, mem_plusLoop_charClass]
  constructor
  · rintro ⟨m, ⟨w, t, hw, -, hrest, hall, rfl⟩, rfl⟩
    refine ⟨w, t, hw, hrest, hall, ?_⟩
    simp [hrest]
  · rintro ⟨w, t, hw, hrest, hall, rfl⟩
    refine ⟨⟨st.pos + w.length, t, st.caps⟩, ⟨w, t, hw, ?_, hrest, hall, rfl⟩, ?_⟩
    · simp [hrest]; omega
    · simp [hrest]

/-! ## The three URL patterns -/

theorem issueRegexp_eq : issueRegexp = urlRegexp "issues".toList := rfl
theorem pullRegexp_eq : pullRegexp = urlRegexp "pull".toList := rfl
theorem discussionRegexp_eq : discussionRegexp = urlRegexp "discussions".toList := rfl

theorem classMatches_notSlash (c : Char) : classMatches true [('/', '/')] c = true ↔ c ≠ '/' := by
  have h : ('/' ≤ c ∧ c ≤ '/') ↔ c = '/' := by
    constructor
    · rintro ⟨h1, h2⟩; exact le_antisymm h2 h1
    · rintro rfl; exact ⟨le_refl _, le_refl _⟩
  simp [classMatches, h]

theorem classMatches_digit (c : Char) : classMatches false [('0', '9')] c = c.isDigit := by
  simp [classMatches, Char.isDigit, Char.le_def]

theorem mem_run_urlRegexp (kind s : List Char) (p : Nat) (r : MState) :
    r ∈ run (urlRegexp kind) ⟨p, s, []⟩ ↔
      p = 0 ∧ ∃ owner repo num, IsResourceURL kind s owner repo num ∧
        r = ⟨s.length, [], [(3, num), (2, repo), (1, owner)]⟩ := by
  simp only [urlRegexp, notSlash, digit, mem_run_concat, mem_run_beginText, mem_run_literal, mem_run_quest,
    mem_run_capture_plus, mem_run_endText, classMatches_notSlash, classMatches_digit]
  have e1 : "http".toList.length = 4 := rfl
  have e2 : "s".toList.length = 1 := rfl
  have e3 : "://github.com/".toList.length = 14 := rfl
  have e4 : "/".toList.length = 1 := rfl
  have e5 : "http://github.com/".toList.length = 18 := rfl
  have e6 : "https://github.com/".toList.length = 19 := rfl
  constructor
  · rintro ⟨m0, ⟨hp, rfl⟩, m1, ⟨t1, h1, rfl⟩, m2, hq, m3, ⟨t3, h3, rfl⟩, m4, ⟨w1, t4, hw1, h4, hall1, rfl⟩,
      m5, ⟨t5, h5, rfl⟩, m6, ⟨w2, t6, hw2, h6, hall2, rfl⟩, m7, ⟨t7, h7, rfl⟩, m8,
      ⟨w3, t8, hw3, h8, hall3, rfl⟩, hend, rfl⟩
    simp only at h1 h4 h5 h6 h7 h8 hend
    subst hp hend h8 h7 h6 h5 h4
    have ho : '/' ∉ w1 := fun h => hall1 _ h rfl
    have hr : '/' ∉ w2 := fun h => hall2 _ h rfl
    rcases hq with ⟨t2, h2, rfl⟩ | rfl
    · simp only at h2 h3
      subst h3 h2 h1
      refine ⟨rfl, w1, w2, w3, ⟨Or.inr (by simp), hw1, ho, hw2, hr, hw3, hall3⟩, ?_⟩
      simp only [MState.mk.injEq, and_true, true_and, List.length_append, List.length_cons,
        List.length_nil, List.append_nil, e1, e2, e3, e4, e5, e6]
      omega
    · simp only at h3
      subst h3 h1
      refine ⟨rfl, w1, w2, w3, ⟨Or.inl (by simp), hw1, ho, hw2, hr, hw3, hall3⟩, ?_⟩
      simp only [MState.mk.injEq, and_true, true_and, List.length_append, List.length_cons,
        List.length_nil, List.append_nil, e1, e2, e3, e4, e5, e6]
      omega
  · rintro ⟨rfl, owner, repo, num, ⟨hs, ho, hos, hr, hrs, hn, hd⟩, rfl⟩
    have hall1 : ∀ c ∈ owner, c ≠ '/' := fun c hc e => hos (e ▸ hc)
    have hall2 : ∀ c ∈ repo, c ≠ '/' := fun c hc e => hrs (e ▸ hc)
    rcases hs with rfl | rfl
    · refine ⟨_, ⟨rfl, rfl⟩, _, ⟨_, rfl, rfl⟩, _, Or.inr rfl, _, ⟨_, rfl, rfl⟩, _,
        ⟨owner, _, ho, rfl, hall1, rfl⟩, _, ⟨_, rfl, rfl⟩, _, ⟨repo, _, hr, rfl, hall2, rfl⟩, _,
        ⟨num, by simp, rfl⟩, _, ⟨num, [], hn, by simp, hd, rfl⟩, rfl, ?_⟩
      simp only [MState.mk.injEq, and_true, true_and, List.length_append, List.length_cons,
        List.length_nil, List.append_nil, e1, e2, e3, e4, e5, e6]
      omega
    · refine ⟨_, ⟨rfl, rfl⟩, _, ⟨_, rfl, rfl⟩, _, Or.inl ⟨_, rfl, rfl⟩, _, ⟨_, rfl, rfl⟩, _,
        ⟨owner, _, ho, rfl, hall1, rfl⟩, _, ⟨_, rfl, rfl⟩, _, ⟨repo, _, hr, rfl, hall2, rfl⟩, _,
        ⟨num, by simp, rfl⟩, _, ⟨num, [], hn, by simp, hd, rfl⟩, rfl, ?_⟩
      simp only [MState.mk.injEq, and_true, true_and, List.length_append, List.length_cons,
        List.length_nil, List.append_nil, e1, e2, e3, e4, e5, e6]
      omega

theorem append_cons_inj {α : Type} {c : α} {a a' b b' : List α} (ha : c ∉ a) (ha' : c ∉ a')
    (h : a ++ c :: b = a' ++ c :: b') : a = a' ∧ b = b' := by
  induction a generalizing a' with
  | nil =>
    cases a' with
    | nil => simpa using h
    | cons x a' =>
      simp only [List.nil_append, List.cons_append, List.cons.injEq] at h
      exact absurd (h.1 ▸ List.mem_cons_self _ _) ha'
  | cons y a ih =>
    cases a' with
    | nil =>
      simp only [List.nil_append, List.cons_append, List.cons.injEq] at h
      exact absurd (h.1 ▸ List.mem_cons_self _ _) ha
    | cons x a' =>
      simp only [List.cons_append, List.cons.injEq] at h
      obtain ⟨e1, e2⟩ := ih (fun m => ha (List.mem_cons_of_mem _ m))
        (fun m => ha' (List.mem_cons_of_mem _ m)) h.2
      exact ⟨by rw [h.1, e1], e2⟩

/-- The scheme and host prefix and the path of a URL of the shape are
determined by the URL. -/
theorem IsResourceURL.path_eq {k s o r n k' o' r' n' : List Char} (h : IsResourceURL k s o r n)
    (h' : IsResourceURL k' s o' r' n') :
    o ++ '/' :: (r ++ '/' :: (k ++ '/' :: n)) = o' ++ '/' :: (r' ++ '/' :: (k' ++ '/' :: n')) := by
  obtain ⟨hs, -⟩ := h
  obtain ⟨hs', -⟩ := h'
  rcases hs with rfl | rfl <;> rcases hs' with e | e
  · exact List.append_cancel_left e
  · exact absurd e (by simp)
  · exact absurd e (by simp)
  · exact List.append_cancel_left e

theorem IsResourceURL.owner_repo_eq {k s o r n k' o' r' n' : List Char} (h : IsResourceURL k s o r n)
    (h' : IsResourceURL k' s o' r' n') : o = o' ∧ r = r' ∧ k ++ '/' :: n = k' ++ '/' :: n' := by
  have e := h.path_eq h'
  obtain ⟨e1, e2⟩ := append_cons_inj h.2.2.1 h'.2.2.1 e
  obtain ⟨e3, e4⟩ := append_cons_inj h.2.2.2.2.1 h'.2.2.2.2.1 e2
  exact ⟨e1, e3, e4⟩

/-- The groups of a URL of the shape are determined by the URL. -/
theorem IsResourceURL.unique {k s o r n o' r' n' : List Char} (h : IsResourceURL k s o r n)
    (h' : IsResourceURL k s o' r' n') : o = o' ∧ r = r' ∧ n = n' := by
  obtain ⟨e1, e2, e3⟩ := h.owner_repo_eq h'
  exact ⟨e1, e2, by simpa using e3⟩

/-- A URL has the shape for at most one slash-free path segment. -/
theorem IsResourceURL.kind_eq {k s o r n k' o' r' n' : List Char} (h : IsResourceURL k s o r n)
    (h' : IsResourceURL k' s o' r' n') (hk : '/' ∉ k) (hk' : '/' ∉ k') : k = k' :=
  (append_cons_inj hk hk' (h.owner_repo_eq h').2.2).1

theorem search_urlRegexp_succ (kind s : List Char) (p : Nat) :
    search (urlRegexp kind) (p + 1) s = none := by
  have hnil : ∀ (q : Nat) (t : List Char), run (urlRegexp kind) ⟨q + 1, t, []⟩ = [] := by
    intro q t
    apply List.eq_nil_iff_forall_not_mem.mpr
    intro r hr
    rw [mem_run_urlRegexp] at hr
    exact absurd hr.1 (Nat.succ_ne_zero q)
  induction s generalizing p with
  | nil => simp [search, hnil]
  | cons c cs ih => simp [search, hnil, ih]

theorem search_urlRegexp_zero (kind s : List Char) :
    search (urlRegexp kind) 0 s = ((run (urlRegexp kind) ⟨0, s, []⟩).head?).map fun st => (0, st) := by
  cases s with
  | nil => simp [search]
  | cons c cs =>
    simp only [search]
    cases (run (urlRegexp kind) ⟨0, c :: cs, []⟩).head? with
    | none => simp [search_urlRegexp_succ]
    | some st => simp

/-- On a URL of the shape the leftmost match starts at offset 0, spans the
whole text and closes the three groups on owner, repo and number. -/
theorem search_urlRegexp_of_shape {kind s o r n : List Char} (h : IsResourceURL kind s o r n) :
    search (urlRegexp kind) 0 s = some (0, ⟨s.length, [], [(3, n), (2, r), (1, o)]⟩) := by
  rw [search_urlRegexp_zero]
  have hmem : (⟨s.length, [], [(3, n), (2, r), (1, o)]⟩ : MState) ∈ run (urlRegexp kind) ⟨0, s, []⟩ :=
    (mem_run_urlRegexp kind s 0 _).mpr ⟨rfl, o, r, n, h, rfl⟩
  cases hl : run (urlRegexp kind) ⟨0, s, []⟩ with
  | nil => rw [hl] at hmem; exact absurd hmem (List.not_mem_nil _)
  | cons x xs =>
    have hx : x ∈ run (urlRegexp kind) ⟨0, s, []⟩ := by rw [hl]; exact List.mem_cons_self _ _
    obtain ⟨-, o', r', n', h', rfl⟩ := (mem_run_urlRegexp kind s 0 x).mp hx
    obtain ⟨rfl, rfl, rfl⟩ := h.unique h'
    simp

/-- Every match of a pattern is a URL of the shape, matched as a whole. -/
theorem shape_of_search_urlRegexp {kind s : List Char} {x : Nat × MState}
    (h : search (urlRegexp kind) 0 s = some x) :
    ∃ o r n, IsResourceURL kind s o r n ∧ x = (0, ⟨s.length, [], [(3, n), (2, r), (1, o)]⟩) := by
  rw [search_urlRegexp_zero] at h
  cases hl : run (urlRegexp kind) ⟨0, s, []⟩ with
  | nil => simp [hl] at h
  | cons y ys =>
    have hy : y ∈ run (urlRegexp kind) ⟨0, s, []⟩ := by rw [hl]; exact List.mem_cons_self _ _
    obtain ⟨-, o, r, n, h', rfl⟩ := (mem_run_urlRegexp kind s 0 y).mp hy
    refine ⟨o, r, n, h', ?_⟩
    simpa [hl] using h.symm

theorem MatchString_urlRegexp (kind s : List Char) :
    (urlRegexp kind).MatchString s = true ↔ ∃ o r n, IsResourceURL kind s o r n := by
  unfold Regexp.MatchString
  constructor
  · intro h
    obtain ⟨x, hx⟩ := Option.isSome_iff_exists.mp h
    obtain ⟨o, r, n, h', -⟩ := shape_of_search_urlRegexp hx
    exact ⟨o, r, n, h'⟩
  · rintro ⟨o, r, n, h⟩
    rw [search_urlRegexp_of_shape h]; rfl

theorem FindStringSubmatch_urlRegexp_of_shape {kind s o r n : List Char} (h : IsResourceURL kind s o r n) :
    (urlRegexp kind).FindStringSubmatch 3 s = some [s, o, r, n] := by
  unfold Regexp.FindStringSubmatch
  rw [search_urlRegexp_of_shape h]
  simp [groupText, List.range_succ]

theorem shape_of_FindStringSubmatch_urlRegexp {kind s : List Char} {l : List (List Char)}
    (h : (urlRegexp kind).FindStringSubmatch 3 s = some l) :
    ∃ o r n, IsResourceURL kind s o r n ∧ l = [s, o, r, n] := by
  unfold Regexp.FindStringSubmatch at h
  cases hs : search (urlRegexp kind) 0 s with
  | none => simp [hs] at h
  | some x =>
    obtain ⟨o, r, n, h', rfl⟩ := shape_of_search_urlRegexp hs
    refine ⟨o, r, n, h', ?_⟩
    have h2 := FindStringSubmatch_urlRegexp_of_shape h'
    unfold Regexp.FindStringSubmatch at h2
    rw [h2] at h
    exact (Option.some.inj h).symm

/-! ## `Match` on the three patterns -/

theorem SupportedPatterns_eq : SupportedPatterns = [issuePattern, pullPattern, discussionPattern] := rfl

theorem MatchString_issueRegexp (s : List Char) : issueRegexp.MatchString s = true ↔ IsIssueURL s :=
  MatchString_urlRegexp "issues".toList s

theorem MatchString_pullRegexp (s : List Char) : pullRegexp.MatchString s = true ↔ IsPullURL s :=
  MatchString_urlRegexp "pull".toList s

theorem MatchString_discussionRegexp (s : List Char) :
    discussionRegexp.MatchString s = true ↔ IsDiscussionURL s :=
  MatchString_urlRegexp "discussions".toList s

theorem not_issue_and_pull (s : List Char) : ¬ (IsIssueURL s ∧ IsPullURL s) := by
  rintro ⟨⟨o, r, n, h⟩, o', r', n', h'⟩
  exact absurd (h.kind_eq h' (by decide) (by decide)) (by decide)

theorem not_issue_and_discussion (s : List Char) : ¬ (IsIssueURL s ∧ IsDiscussionURL s) := by
  rintro ⟨⟨o, r, n, h⟩, o', r', n', h'⟩
  exact absurd (h.kind_eq h' (by decide) (by decide)) (by decide)

theorem not_pull_and_discussion (s : List Char) : ¬ (IsPullURL s ∧ IsDiscussionURL s) := by
  rintro ⟨⟨o, r, n, h⟩, o', r', n', h'⟩
  exact absurd (h.kind_eq h' (by decide) (by decide)) (by decide)

theorem Match_unfold (s : List Char) :
    Match s = if issueRegexp.MatchString s = true then some issuePattern
      else if pullRegexp.MatchString s = true then some pullPattern
      else if discussionRegexp.MatchString s = true then some discussionPattern else none := rfl

theorem Match_eq_some_iff (s : List Char) (p : URLPattern) :
    Match s = some p ↔
      (p = issuePattern ∧ IsIssueURL s) ∨ (p = pullPattern ∧ IsPullURL s) ∨
        (p = discussionPattern ∧ IsDiscussionURL s) := by
  have h1 := not_issue_and_pull s
  have h2 := not_issue_and_discussion s
  have h3 := not_pull_and_discussion s
  classical
  rw [Match_unfold]
  simp only [MatchString_issueRegexp, MatchString_pullRegexp, MatchString_discussionRegexp]
  by_cases hi : IsIssueURL s <;> by_cases hp : IsPullURL s <;> by_cases hd : IsDiscussionURL s <;>
    simp [hi, hp, hd, eq_comm] <;> tauto

theorem Match_eq_none_iff (s : List Char) :
    Match s = none ↔ ¬ IsIssueURL s ∧ ¬ IsPullURL s ∧ ¬ IsDiscussionURL s := by
  classical
  rw [Match_unfold]
  simp only [MatchString_issueRegexp, MatchString_pullRegexp, MatchString_discussionRegexp]
  by_cases hi : IsIssueURL s <;> by_cases hp : IsPullURL s <;> by_cases hd : IsDiscussionURL s <;>
    simp [hi, hp, hd]

theorem exists_kind_iff (s : List Char) :
    (∃ kind ∈ kindSegments, ∃ o r n, IsResourceURL kind s o r n) ↔
      IsIssueURL s ∨ IsPullURL s ∨ IsDiscussionURL s := by
  simp [kindSegments, IsIssueURL, IsPullURL, IsDiscussionURL]

/-! ## Decimal digits -/

theorem digitsValue_append_singleton (l : List Char) (c : Char) :
    digitsValue (l ++ [c]) = digitsValue l * 10 + (c.toNat - '0'.toNat) := by
  simp [digitsValue, List.foldl_append]

theorem digitChar_value (k : Nat) (hk : k < 10) :
    (Nat.digitChar k).toNat - '0'.toNat = k ∧ (Nat.digitChar k).isDigit = true := by
  interval_cases k <;> exact ⟨rfl, rfl⟩

theorem toDigitsCore_append (fuel n : Nat) (ds : List Char) :
    Nat.toDigitsCore 10 fuel n ds = Nat.toDigitsCore 10 fuel n [] ++ ds := by
  induction fuel generalizing n ds with
  | zero => simp [Nat.toDigitsCore]
  | succ fuel ih =>
    simp only [Nat.toDigitsCore]
    split
    · simp
    · rw [ih (n / 10) (Nat.digitChar (n % 10) :: ds), ih (n / 10) [Nat.digitChar (n % 10)]]
      simp

theorem toDigitsCore_spec (fuel n : Nat) (h : n < fuel) :
    digitsValue (Nat.toDigitsCore 10 fuel n []) = n ∧ Nat.toDigitsCore 10 fuel n [] ≠ [] ∧
      ∀ c ∈ Nat.toDigitsCore 10 fuel n [], c.isDigit = true := by
  induction fuel generalizing n with
  | zero => omega
  | succ fuel ih =>
    have hd := digitChar_value (n % 10) (Nat.mod_lt _ (by decide))
    simp only [Nat.toDigitsCore]
    split
    · rename_i h0
      refine ⟨?_, by simp, by simpa using hd.2⟩
      have := digitsValue_append_singleton [] (Nat.digitChar (n % 10))
      simp only [List.nil_append] at this
      rw [this, hd.1]
      simp only [digitsValue, List.foldl_nil]
      omega
    · rename_i h0
      obtain ⟨h1, h2, h3⟩ := ih (n / 10) (by omega)
      rw [toDigitsCore_append]
      refine ⟨?_, by simp, ?_⟩
      · rw [digitsValue_append_singleton, h1, hd.1]; omega
      · intro c hc
        rcases List.mem_append.mp hc with hc | hc
        · exact h3 c hc
        · rw [List.mem_singleton.mp hc]; exact hd.2

/-- A number written in decimal is a non-empty run of ASCII digits that
denotes the number. -/
theorem toDigits_spec (n : Nat) :
    digitsValue (Nat.toDigits 10 n) = n ∧ Nat.toDigits 10 n ≠ [] ∧
      ∀ c ∈ Nat.toDigits 10 n, c.isDigit = true :=
  toDigitsCore_spec (n + 1) n (Nat.lt_succ_self n)

theorem resourceURL_shape (kind owner repo : List Char) (n : Nat) (ho : owner ≠ []) (hos : '/' ∉ owner)
    (hr : repo ≠ []) (hrs : '/' ∉ repo) :
    IsResourceURL kind (resourceURL kind owner repo n) owner repo (Nat.toDigits 10 n) :=
  ⟨Or.inr rfl, ho, hos, hr, hrs, (toDigits_spec n).2.1, (toDigits_spec n).2.2⟩

/-- What `Match` and `classify` do on a URL of the shape of a pattern. -/
theorem classify_of_shape {kind s o r n : List Char} {p : URLPattern} (hp : p.Pattern = urlRegexp kind)
    (hm : Match s = some p) (h : IsResourceURL kind s o r n) :
    p.Pattern.FindStringSubmatch 3 s = some [s, o, r, n] ∧
      ((digitsValue n : Int) < (2 : Int) ^ 63 →
        ∃ u, classify s = some u ∧ u.IsValid = true ∧ u.Type' = p.Type' ∧ u.OriginalURL = s ∧
          u.Owner = o ∧ u.Repo = r ∧ u.Number.val = (digitsValue n : Int)) := by
  have hf : p.Pattern.FindStringSubmatch 3 s = some [s, o, r, n] := by
    rw [hp]; exact FindStringSubmatch_urlRegexp_of_shape h
  refine ⟨hf, fun hlt => ?_⟩
  simp only [classify, hm, hf, parseInt64, dif_pos hlt, Option.map_some']
  exact ⟨_, rfl, rfl, rfl, rfl, rfl, rfl, rfl⟩

/-! ## The claims -/

/-- C1: `IsSupported s` is true exactly when `s` is `http://github.com/` or
`https://github.com/` followed by owner, `/`, repo, `/`, one of `issues`, `pull`,
`discussions`, `/` and digits, with owner and repo non-empty and free of `/`, the
digits a non-empty run of ASCII decimal digits and nothing following; for every
other string `Match` returns `nil`. -/
theorem IsSupported_iff_resource_url (s : List Char) :
    (IsSupported s = true ↔ ∃ kind ∈ kindSegments, ∃ o r n, IsResourceURL kind s o r n) ∧
      ((¬ ∃ kind ∈ kindSegments, ∃ o r n, IsResourceURL kind s o r n) → Match s = none) := by
  rw [exists_kind_iff]
  constructor
  · unfold IsSupported
    cases h : Match s with
    | none =>
      rw [Match_eq_none_iff] at h
      simp [h]
    | some p =>
      rw [Match_eq_some_iff] at h
      simp only [Option.isSome_some, true_iff]
      tauto
  · intro h
    rw [Match_eq_none_iff]
    tauto

theorem IsSupported_iff_resource_url_witness :
    IsSupported "https://github.com/golang/go/issues/12345".toList = true ∧
      ∃ kind ∈ kindSegments, ∃ o r n,
        IsResourceURL kind "https://github.com/golang/go/issues/12345".toList o r n :=
  ⟨by decide, (IsSupported_iff_resource_url _).1.mp (by decide)⟩

theorem classifiedAs_of_shape {kind owner repo : List Char} {n : Nat} {p : URLPattern}
    (hp : p.Pattern = urlRegexp kind) (ho : owner ≠ []) (hos : '/' ∉ owner) (hr : repo ≠ [])
    (hrs : '/' ∉ repo) (hm : Match (resourceURL kind owner repo n) = some p) :
    ClassifiedAs (resourceURL kind owner repo n) p p.Type' owner repo n := by
  have hs := resourceURL_shape kind owner repo n ho hos hr hrs
  obtain ⟨h1, h2⟩ := classify_of_shape hp hm hs
  have hv := (toDigits_spec n).1
  refine ⟨hm, rfl, h1, hv, fun hlt => ?_⟩
  rw [hv] at h2
  exact h2 hlt

/-- C2 (as amended): for every owner and repo that are non-empty and contain
no `/` and every positive integer `n` written in decimal, `Match` on
`https://github.com/{owner}/{repo}/issues/{n}` returns the pattern whose type is
issue, and the three capture groups of that pattern on the URL are owner, repo
and the digits of `n`; when `n` is at most `2^63 - 1`, the range of the `int64`
field `Number`, the classification is valid with kind issue and the same
owner, repo and `n`. The same holds for `/pull/{n}` with type pr and for
`/discussions/{n}` with type discussion. -/
theorem Match_resourceURL (owner repo : List Char) (n : Nat) (ho : owner ≠ []) (hos : '/' ∉ owner)
    (hr : repo ≠ []) (hrs : '/' ∉ repo) (_hn : 0 < n) :
    ClassifiedAs (resourceURL "issues".toList owner repo n) issuePattern ResourceTypeIssue owner repo n ∧
      ClassifiedAs (resourceURL "pull".toList owner repo n) pullPattern ResourceTypePR owner repo n ∧
      ClassifiedAs (resourceURL "discussions".toList owner repo n) discussionPattern
        ResourceTypeDiscussion owner repo n := by
  refine ⟨?_, ?_, ?_⟩
  · exact classifiedAs_of_shape issueRegexp_eq ho hos hr hrs
      ((Match_eq_some_iff _ _).mpr (Or.inl ⟨rfl, _, _, _, resourceURL_shape _ owner repo n ho hos hr hrs⟩))
  · exact classifiedAs_of_shape pullRegexp_eq ho hos hr hrs
      ((Match_eq_some_iff _ _).mpr
        (Or.inr (Or.inl ⟨rfl, _, _, _, resourceURL_shape _ owner repo n ho hos hr hrs⟩)))
  · exact classifiedAs_of_shape discussionRegexp_eq ho hos hr hrs
      ((Match_eq_some_iff _ _).mpr
        (Or.inr (Or.inr ⟨rfl, _, _, _, resourceURL_shape _ owner repo n ho hos hr hrs⟩)))

theorem Match_resourceURL_witness :
    ("golang".toList ≠ [] ∧ '/' ∉ "golang".toList ∧ "go".toList ≠ [] ∧ '/' ∉ "go".toList ∧ 0 < 12345) ∧
      resourceURL "issues".toList "golang".toList "go".toList 12345 =
        "https://github.com/golang/go/issues/12345".toList ∧
      ClassifiedAs (resourceURL "issues".toList "golang".toList "go".toList 12345) issuePattern
        ResourceTypeIssue "golang".toList "go".toList 12345 :=
  ⟨by decide, by decide,
    (Match_resourceURL "golang".toList "go".toList 12345 (by decide) (by decide) (by decide) (by decide)
      (by decide)).1⟩

/-- C2 (counterexample): `2^63` is a positive integer, and on
`https://github.com/a/b/issues/9223372036854775808` `Match` returns the issue
pattern with capture groups `a`, `b` and the digits of `2^63`; but no
`ResourceURL` has that number, `Number` being an `int64`, so no classification
carries the same `n`. -/
theorem classify_number_not_int64 :
    Nat.toDigits 10 (2 ^ 63) = "9223372036854775808".toList ∧
      Match "https://github.com/a/b/issues/9223372036854775808".toList = some issuePattern ∧
      issuePattern.Pattern.FindStringSubmatch 3 "https://github.com/a/b/issues/9223372036854775808".toList =
        some ["https://github.com/a/b/issues/9223372036854775808".toList, "a".toList, "b".toList,
          "9223372036854775808".toList] ∧
      digitsValue "9223372036854775808".toList = 2 ^ 63 ∧
      ¬ ∃ u : ResourceURL,
        classify "https://github.com/a/b/issues/9223372036854775808".toList = some u ∧
          u.IsValid = true ∧ u.Number.val = ((2 ^ 63 : Nat) : Int) := by
  refine ⟨by decide, by decide, by decide, by decide, ?_⟩
  rintro ⟨u, -, -, h⟩
  have := u.Number.property.2
  rw [h] at this
  exact absurd this (by decide)

theorem matchesWhole_urlRegexp (kind s : List Char) :
    (urlRegexp kind).matchesWhole s = true ↔ ∃ o r n, IsResourceURL kind s o r n := by
  simp only [Regexp.matchesWhole, List.any_eq_true]
  constructor
  · rintro ⟨st, hst, -⟩
    obtain ⟨-, o, r, n, h, -⟩ := (mem_run_urlRegexp kind s 0 st).mp hst
    exact ⟨o, r, n, h⟩
  · rintro ⟨o, r, n, h⟩
    exact ⟨_, (mem_run_urlRegexp kind s 0 _).mpr ⟨rfl, o, r, n, h, rfl⟩, rfl⟩

/-- For each of the three patterns, `MatchString` (which searches the text for
a match) holds exactly when the expression matches the entire text. -/
theorem MatchString_eq_matchesWhole (p : URLPattern) (hp : p ∈ SupportedPatterns) (url : List Char) :
    p.Pattern.MatchString url = p.Pattern.matchesWhole url := by
  have key : ∀ kind, (urlRegexp kind).MatchString url = (urlRegexp kind).matchesWhole url := by
    intro kind
    rw [Bool.eq_iff_iff, MatchString_urlRegexp, matchesWhole_urlRegexp]
  simp only [SupportedPatterns_eq, List.mem_cons, List.mem_singleton, List.not_mem_nil, or_false] at hp
  rcases hp with rfl | rfl | rfl
  · exact key "issues".toList
  · exact key "pull".toList
  · exact key "discussions".toList

theorem matchLoop_eq_some_iff (ps : List URLPattern) (url : List Char) (p : URLPattern) :
    matchLoop ps url = some p ↔
      ∃ i : Nat, ps[i]? = some p ∧ p.Pattern.MatchString url = true ∧
        ∀ (j : Nat) (q : URLPattern), j < i → ps[j]? = some q → q.Pattern.MatchString url = false := by
  induction ps with
  | nil => simp [matchLoop]
  | cons a ps ih =>
    by_cases ha : a.Pattern.MatchString url = true
    · simp only [matchLoop, ha, if_true, Option.some.injEq]
      constructor
      · rintro rfl
        exact ⟨0, List.getElem?_cons_zero, ha, fun j q hj => absurd hj (Nat.not_lt_zero j)⟩
      · rintro ⟨i, hi, -, hlow⟩
        cases i with
        | zero => simpa using hi
        | succ i =>
          have := hlow 0 a (Nat.succ_pos i) List.getElem?_cons_zero
          rw [ha] at this
          exact absurd this (by decide)
    · have hf : a.Pattern.MatchString url = false := by simpa using ha
      simp only [matchLoop, hf, Bool.false_eq_true, if_false, ih]
      constructor
      · rintro ⟨i, hi, hm, hlow⟩
        refine ⟨i + 1, by simpa using hi, hm, ?_⟩
        intro j q hj hq
        cases j with
        | zero =>
          simp only [List.getElem?_cons_zero, Option.some.injEq] at hq
          subst hq
          exact hf
        | succ j => exact hlow j q (Nat.lt_of_succ_lt_succ hj) (by simpa using hq)
      · rintro ⟨i, hi, hm, hlow⟩
        cases i with
        | zero =>
          simp only [List.getElem?_cons_zero, Option.some.injEq] at hi
          subst hi
          exact absurd hm ha
        | succ i =>
          refine ⟨i, by simpa using hi, hm, ?_⟩
          intro j q hj hq
          exact hlow (j + 1) q (Nat.succ_lt_succ hj) (by simpa using hq)

theorem matchLoop_eq_none_iff (ps : List URLPattern) (url : List Char) :
    matchLoop ps url = none ↔ ∀ p ∈ ps, p.Pattern.MatchString url = false := by
  induction ps with
  | nil => simp [matchLoop]
  | cons a ps ih =>
    by_cases ha : a.Pattern.MatchString url = true
    · simp [matchLoop, ha]
    · simp [matchLoop, ha, ih]

/-- C3: for every string `url`, `Match url` returns the pattern of lowest index
in `SupportedPatterns` whose regular expression matches the entire string, and
returns `nil` exactly when no pattern of `SupportedPatterns` matches it; `Match`
is a total function, so it yields one of the two on every input. -/
theorem Match_lowest_index (url : List Char) :
    (∀ p, Match url = some p ↔
      ∃ i : Nat, SupportedPatterns[i]? = some p ∧ p.Pattern.matchesWhole url = true ∧
        ∀ (j : Nat) (q : URLPattern), j < i → SupportedPatterns[j]? = some q →
          q.Pattern.matchesWhole url = false) ∧
      (Match url = none ↔ ∀ p ∈ SupportedPatterns, p.Pattern.matchesWhole url = false) ∧
      ((∃ p ∈ SupportedPatterns, Match url = some p) ∨ Match url = none) := by
  refine ⟨fun p => ?_, ?_, ?_⟩
  · unfold Match
    rw [matchLoop_eq_some_iff]
    constructor
    · rintro ⟨i, hi, hm, hlow⟩
      refine ⟨i, hi, ?_, fun j q hj hq => ?_⟩
      · rw [← MatchString_eq_matchesWhole p (List.getElem?_mem hi)]; exact hm
      · rw [← MatchString_eq_matchesWhole q (List.getElem?_mem hq)]; exact hlow j q hj hq
    · rintro ⟨i, hi, hm, hlow⟩
      refine ⟨i, hi, ?_, fun j q hj hq => ?_⟩
      · rw [MatchString_eq_matchesWhole p (List.getElem?_mem hi)]; exact hm
      · rw [MatchString_eq_matchesWhole q (List.getElem?_mem hq)]; exact hlow j q hj hq
  · unfold Match
    rw [matchLoop_eq_none_iff]
    constructor
    · intro h p hp
      rw [← MatchString_eq_matchesWhole p hp]; exact h p hp
    · intro h p hp
      rw [MatchString_eq_matchesWhole p hp]; exact h p hp
  · cases h : Match url with
    | none => exact Or.inr rfl
    | some p =>
      left
      refine ⟨p, ?_, rfl⟩
      unfold Match at h
      obtain ⟨i, hi, -⟩ := (matchLoop_eq_some_iff _ _ _).mp h
      exact List.getElem?_mem hi

theorem Match_lowest_index_witness :
    Match "https://github.com/golang/go/pull/999".toList = some pullPattern ∧
      ∃ i : Nat, SupportedPatterns[i]? = some pullPattern ∧
        pullPattern.Pattern.matchesWhole "https://github.com/golang/go/pull/999".toList = true ∧
        ∀ (j : Nat) (q : URLPattern), j < i → SupportedPatterns[j]? = some q →
          q.Pattern.matchesWhole "https://github.com/golang/go/pull/999".toList = false :=
  ⟨by decide, ((Match_lowest_index _).1 pullPattern).mp (by decide)⟩

/-! ## Suffixes, queries and fragments -/

theorem kindSegments_no_slash (k : List Char) (hk : k ∈ kindSegments) : '/' ∉ k := by
  simp only [kindSegments, List.mem_cons, List.mem_singleton, List.not_mem_nil, or_false] at hk
  rcases hk with rfl | rfl | rfl <;> decide

theorem Match_some_shape {s : List Char} {p : URLPattern} (h : Match s = some p) :
    ∃ kind ∈ kindSegments, p.Pattern = urlRegexp kind ∧ ∃ o r n, IsResourceURL kind s o r n := by
  rcases (Match_eq_some_iff s p).mp h with ⟨rfl, h2⟩ | ⟨rfl, h2⟩ | ⟨rfl, h2⟩
  · exact ⟨"issues".toList, by simp [kindSegments], rfl, h2⟩
  · exact ⟨"pull".toList, by simp [kindSegments], rfl, h2⟩
  · exact ⟨"discussions".toList, by simp [kindSegments], rfl, h2⟩

/-- A URL of the shape of the pattern that `Match` returned on another URL,
with the same path segment, gets the same pattern. -/
theorem Match_same_kind {s s' kind o r n o' r' n' : List Char} {p : URLPattern} (h : Match s = some p)
    (hk : '/' ∉ kind) (hs : IsResourceURL kind s o r n) (hs' : IsResourceURL kind s' o' r' n') :
    Match s' = some p := by
  rw [Match_eq_some_iff] at h ⊢
  rcases h with ⟨rfl, a, b, c, h⟩ | ⟨rfl, a, b, c, h⟩ | ⟨rfl, a, b, c, h⟩
  · have e := hs.kind_eq h hk (by decide)
    subst e
    exact Or.inl ⟨rfl, o', r', n', hs'⟩
  · have e := hs.kind_eq h hk (by decide)
    subst e
    exact Or.inr (Or.inl ⟨rfl, o', r', n', hs'⟩)
  · have e := hs.kind_eq h hk (by decide)
    subst e
    exact Or.inr (Or.inr ⟨rfl, o', r', n', hs'⟩)

/-- If a URL of the shape stays of the shape with `t` appended, then `t` was
appended to the digits. -/
theorem IsResourceURL.append_eq {k u o r n k' t o' r' n' : List Char} (h : IsResourceURL k u o r n)
    (h' : IsResourceURL k' (u ++ t) o' r' n') (hk : '/' ∉ k) (hk' : '/' ∉ k') :
    o = o' ∧ r = r' ∧ k = k' ∧ n ++ t = n' := by
  have e : o ++ '/' :: (r ++ '/' :: (k ++ '/' :: (n ++ t))) =
      o' ++ '/' :: (r' ++ '/' :: (k' ++ '/' :: n')) := by
    obtain ⟨hs, -⟩ := h
    obtain ⟨hs', -⟩ := h'
    rcases hs with rfl | rfl <;> rcases hs' with e | e
    · simpa using e
    · exact absurd e (by simp)
    · exact absurd e (by simp)
    · simpa using e
  obtain ⟨e1, e2⟩ := append_cons_inj h.2.2.1 h'.2.2.1 e
  obtain ⟨e3, e4⟩ := append_cons_inj h.2.2.2.2.1 h'.2.2.2.2.1 e2
  obtain ⟨e5, e6⟩ := append_cons_inj hk hk' e4
  exact ⟨e1, e3, e5, e6⟩

/-- C4: for every string `u` that `Match` accepts and every non-empty suffix
that begins with `/`, `?` or `#`, `Match` returns `nil` on `u` followed by the
suffix and `IsSupported` is false on it: a trailing slash, query string or
fragment appended to an otherwise valid URL makes classification fail. -/
theorem Match_append_suffix (u : List Char) (p : URLPattern) (c : Char) (t : List Char)
    (hu : Match u = some p) (hc : c = '/' ∨ c = '?' ∨ c = '#') :
    Match (u ++ c :: t) = none ∧ IsSupported (u ++ c :: t) = false := by
  have hnone : Match (u ++ c :: t) = none := by
    cases hm : Match (u ++ c :: t) with
    | none => rfl
    | some q =>
      exfalso
      obtain ⟨k, hk, -, o, r, n, h⟩ := Match_some_shape hu
      obtain ⟨k', hk', -, o', r', n', h'⟩ := Match_some_shape hm
      obtain ⟨-, -, -, e⟩ := h.append_eq h' (kindSegments_no_slash k hk) (kindSegments_no_slash k' hk')
      have hd : c.isDigit = true := h'.2.2.2.2.2.2 c (by rw [← e]; simp)
      rcases hc with rfl | rfl | rfl <;> exact absurd hd (by decide)
  exact ⟨hnone, by simp [IsSupported, hnone]⟩

theorem Match_append_suffix_witness :
    Match "https://github.com/golang/go/issues/12345".toList = some issuePattern ∧
      Match ("https://github.com/golang/go/issues/12345".toList ++ '?' :: "tab=comments".toList) = none ∧
      IsSupported ("https://github.com/golang/go/issues/12345".toList ++ '?' :: "tab=comments".toList)
        = false :=
  ⟨by decide,
    Match_append_suffix "https://github.com/golang/go/issues/12345".toList issuePattern '?'
      "tab=comments".toList (by decide) (by decide)⟩

/-- C5 (counterexample): the string `https://github.com/a?b/c#d/issues/1`
contains both `?` and `#`, and `Match` returns the issue pattern on it, with
owner `a?b` and repo `c#d`. -/
theorem Match_accepts_query_in_owner :
    '?' ∈ "https://github.com/a?b/c#d/issues/1".toList ∧
      '#' ∈ "https://github.com/a?b/c#d/issues/1".toList ∧
      Match "https://github.com/a?b/c#d/issues/1".toList = some issuePattern ∧
      issueRegexp.FindStringSubmatch 3 "https://github.com/a?b/c#d/issues/1".toList =
        some ["https://github.com/a?b/c#d/issues/1".toList, "a?b".toList, "c#d".toList, "1".toList] := by
  decide

theorem not_mem_path_tail {k n : List Char} {c : Char} (hk : k ∈ kindSegments)
    (hn : ∀ d ∈ n, d.isDigit = true) (hc : c = '?' ∨ c = '#') : c ∉ k ++ '/' :: n := by
  intro hmem
  rcases List.mem_append.mp hmem with h | h
  · simp only [kindSegments, List.mem_cons, List.mem_singleton, List.not_mem_nil, or_false] at hk
    rcases hk with rfl | rfl | rfl <;> rcases hc with rfl | rfl <;> exact absurd h (by decide)
  · rcases List.mem_cons.mp h with h | h
    · rcases hc with rfl | rfl <;> exact absurd h (by decide)
    · have := hn c h
      rcases hc with rfl | rfl <;> exact absurd this (by decide)

/-- A string in which a `?` or a `#` occurs after the fifth `/` (after the
scheme, host, owner and repo segments) is not accepted by `Match`. -/
theorem Match_query_after_repo (a b : List Char) (ha : 5 ≤ a.count '/') (hb : '?' ∈ b ∨ '#' ∈ b) :
    Match (a ++ b) = none := by
  cases hm : Match (a ++ b) with
  | none => rfl
  | some q =>
    exfalso
    obtain ⟨k, hk, -, o, r, n, hs, ho, hos, hr, hrs, hn, hd⟩ := Match_some_shape hm
    have hQ : ∀ c, (c = '?' ∨ c = '#') → c ∉ k ++ '/' :: n := fun c hc => not_mem_path_tail hk hd hc
    obtain ⟨pre, hpre, hcount⟩ : ∃ pre : List Char,
        a ++ b = (pre ++ (o ++ '/' :: (r ++ ['/']))) ++ (k ++ '/' :: n) ∧ pre.count '/' = 3 := by
      rcases hs with e | e
      · exact ⟨"http://github.com/".toList, by rw [e]; simp, by decide⟩
      · exact ⟨"https://github.com/".toList, by rw [e]; simp, by decide⟩
    have hcP : (pre ++ (o ++ '/' :: (r ++ ['/']))).count '/' = 5 := by
      simp [List.count_append, List.count_cons, hcount, List.count_eq_zero_of_not_mem hos,
        List.count_eq_zero_of_not_mem hrs]
    have hbQ : ∃ c, (c = '?' ∨ c = '#') ∧ c ∈ k ++ '/' :: n := by
      rcases List.append_eq_append_iff.mp hpre with ⟨a', hP, hb'⟩ | ⟨c', ha', hQ'⟩
      · have hca' : a'.count '/' = 0 := by
          have := congrArg (List.count '/') hP
          rw [hcP, List.count_append] at this
          omega
        have ha'nil : a' = [] := by
          rcases List.eq_nil_or_concat a' with h | ⟨l, z, h⟩
          · exact h
          · exfalso
            have e2 : (pre ++ (o ++ '/' :: r)) ++ ['/'] = (a ++ l) ++ [z] := by
              rw [h] at hP; simpa using hP
            have hz := (List.append_inj' e2 rfl).2
            simp only [List.cons.injEq, and_true] at hz
            rw [h, ← hz] at hca'
            simp [List.count_append] at hca'
        rw [ha'nil, List.nil_append] at hb'
        rcases hb with h | h
        · exact ⟨'?', Or.inl rfl, hb' ▸ h⟩
        · exact ⟨'#', Or.inr rfl, hb' ▸ h⟩
      · rcases hb with h | h
        · exact ⟨'?', Or.inl rfl, by rw [hQ']; exact List.mem_append_right _ h⟩
        · exact ⟨'#', Or.inr rfl, by rw [hQ']; exact List.mem_append_right _ h⟩
    obtain ⟨c, hc, hmem⟩ := hbQ
    exact hQ c hc hmem

theorem Match_query_after_repo_witness :
    (5 ≤ "https://github.com/golang/go/issues/".toList.count '/' ∧
      ('?' ∈ "12345?tab=comments".toList ∨ '#' ∈ "12345?tab=comments".toList)) ∧
      Match ("https://github.com/golang/go/issues/".toList ++ "12345?tab=comments".toList) = none :=
  ⟨by decide, Match_query_after_repo _ _ (by decide) (by decide)⟩

/-- A string in which a `?` or a `#` occurs before the third `/` (in the
scheme or the host) is not accepted by `Match`. -/
theorem Match_query_before_owner (a b : List Char) (c : Char) (hc : c = '?' ∨ c = '#')
    (ha : a.count '/' < 3) : Match (a ++ c :: b) = none := by
  cases hm : Match (a ++ c :: b) with
  | none => rfl
  | some q =>
    exfalso
    obtain ⟨k, -, -, o, r, n, hs, -⟩ := Match_some_shape hm
    obtain ⟨P, path, hP, hcount, hcP⟩ : ∃ P path : List Char,
        a ++ c :: b = P ++ path ∧ P.count '/' = 3 ∧ c ∉ P := by
      rcases hs with e | e
      · refine ⟨"http://github.com/".toList, _, e, by decide, ?_⟩
        rcases hc with rfl | rfl <;> decide
      · refine ⟨"https://github.com/".toList, _, e, by decide, ?_⟩
        rcases hc with rfl | rfl <;> decide
    rcases List.append_eq_append_iff.mp hP with ⟨a', hPa, hb'⟩ | ⟨c', ha', -⟩
    · cases a' with
      | nil =>
        rw [List.append_nil] at hPa
        rw [hPa] at hcount
        omega
      | cons x a'' =>
        simp only [List.cons_append, List.cons.injEq] at hb'
        apply hcP
        rw [hPa, hb'.1]
        simp
    · have := congrArg (List.count '/') ha'
      rw [List.count_append, hcount] at this
      omega

/-- C5 (as amended): for every string in which a `?` or a `#` occurs anywhere
but in the owner or the repo segment, that is before the third `/` of the
string or after the fifth, `Match` returns `nil`: a URL with query parameters
or a fragment does not match any supported pattern, unless every `?` and `#`
of it lies in the owner or the repo segment, which accept them. -/
theorem Match_query_outside_owner_repo (a b : List Char) (c : Char) (hc : c = '?' ∨ c = '#')
    (ha : a.count '/' < 3 ∨ 5 ≤ a.count '/') : Match (a ++ c :: b) = none := by
  rcases ha with h | h
  · exact Match_query_before_owner a b c hc h
  · refine Match_query_after_repo a (c :: b) h ?_
    rcases hc with rfl | rfl
    · exact Or.inl (List.mem_cons_self _ _)
    · exact Or.inr (List.mem_cons_self _ _)

theorem Match_query_outside_owner_repo_witness :
    (('?' = '?' ∨ '?' = '#') ∧
      ("https://github.com".toList.count '/' < 3 ∨ 5 ≤ "https://github.com".toList.count '/') ∧
      Match ("https://github.com".toList ++ '?' :: "x/a/b/issues/1".toList) = none) ∧
    (('#' = '?' ∨ '#' = '#') ∧
      ("https://github.com/golang/go/issues/12345".toList.count '/' < 3 ∨
        5 ≤ "https://github.com/golang/go/issues/12345".toList.count '/') ∧
      Match ("https://github.com/golang/go/issues/12345".toList ++ '#' :: "top".toList) = none) :=
  ⟨⟨by decide, by decide,
      Match_query_outside_owner_repo "https://github.com".toList "x/a/b/issues/1".toList '?'
        (by decide) (by decide)⟩,
    ⟨by decide, by decide,
      Match_query_outside_owner_repo "https://github.com/golang/go/issues/12345".toList "top".toList
        '#' (by decide) (by decide)⟩⟩

/-! ## Mutual exclusion of the patterns -/

theorem MatchString_exclusive (s : List Char) (p q : URLPattern) (hp : p ∈ SupportedPatterns)
    (hq : q ∈ SupportedPatterns) (hmp : p.Pattern.MatchString s = true)
    (hmq : q.Pattern.MatchString s = true) : p = q := by
  have h1 := not_issue_and_pull s
  have h2 := not_issue_and_discussion s
  have h3 := not_pull_and_discussion s
  simp only [SupportedPatterns_eq, List.mem_cons, List.mem_singleton, List.not_mem_nil, or_false] at hp hq
  rcases hp with rfl | rfl | rfl <;> rcases hq with rfl | rfl | rfl <;>
    first
    | rfl
    | (exfalso
       simp only [issuePattern, pullPattern, discussionPattern, MatchString_issueRegexp,
         MatchString_pullRegexp, MatchString_discussionRegexp] at hmp hmq
       tauto)

theorem matchLoop_some_mem {ps : List URLPattern} {url : List Char} {p : URLPattern}
    (h : matchLoop ps url = some p) : p ∈ ps ∧ p.Pattern.MatchString url = true := by
  obtain ⟨i, hi, hm, -⟩ := (matchLoop_eq_some_iff ps url p).mp h
  exact ⟨List.getElem?_mem hi, hm⟩

/-- C6: for every string, at most one of the three regular expressions of
`SupportedPatterns` matches it, so the result of the loop of `Match` is the
same on every reordering of `SupportedPatterns`. -/
theorem Match_order_independent (s : List Char) (l : List URLPattern) (hl : l.Perm SupportedPatterns) :
    (∀ p ∈ SupportedPatterns, ∀ q ∈ SupportedPatterns,
        p.Pattern.MatchString s = true → q.Pattern.MatchString s = true → p = q) ∧
      matchLoop l s = Match s := by
  refine ⟨fun p hp q hq => MatchString_exclusive s p q hp hq, ?_⟩
  cases hm : Match s with
  | none =>
    unfold Match at hm
    rw [matchLoop_eq_none_iff] at hm ⊢
    exact fun p hp => hm p (hl.mem_iff.mp hp)
  | some p =>
    unfold Match at hm
    obtain ⟨hp, hpm⟩ := matchLoop_some_mem hm
    cases hq : matchLoop l s with
    | none =>
      rw [matchLoop_eq_none_iff] at hq
      have := hq p (hl.mem_iff.mpr hp)
      rw [hpm] at this
      exact absurd this (by decide)
    | some q =>
      obtain ⟨hql, hqm⟩ := matchLoop_some_mem hq
      rw [MatchString_exclusive s q p (hl.mem_iff.mp hql) hp hqm hpm]

theorem Match_order_independent_witness :
    [discussionPattern, issuePattern, pullPattern].Perm SupportedPatterns ∧
      matchLoop [discussionPattern, issuePattern, pullPattern]
          "https://github.com/golang/go/pull/999".toList = some pullPattern ∧
      matchLoop [discussionPattern, issuePattern, pullPattern]
          "https://github.com/golang/go/pull/999".toList =
        Match "https://github.com/golang/go/pull/999".toList :=
  ⟨by decide, by decide,
    (Match_order_independent "https://github.com/golang/go/pull/999".toList
      [discussionPattern, issuePattern, pullPattern] (by decide)).2⟩

/-! ## The capture groups of an accepted URL -/

/-- C7 (counterexample): `Match` accepts `https://github.com/golang/go/issues/0`,
whose number group `0` denotes zero, and
`https://github.com/golang/go/issues/99999999999999999999`, whose number group
denotes a number above `2^63 - 1`, the largest `int64`. -/
theorem Match_accepts_zero_and_overflow :
    (Match "https://github.com/golang/go/issues/0".toList = some issuePattern ∧
      issueRegexp.FindStringSubmatch 3 "https://github.com/golang/go/issues/0".toList =
        some ["https://github.com/golang/go/issues/0".toList, "golang".toList, "go".toList, "0".toList] ∧
      ¬ 0 < digitsValue "0".toList) ∧
    (Match "https://github.com/golang/go/issues/99999999999999999999".toList = some issuePattern ∧
      issueRegexp.FindStringSubmatch 3 "https://github.com/golang/go/issues/99999999999999999999".toList =
        some ["https://github.com/golang/go/issues/99999999999999999999".toList, "golang".toList,
          "go".toList, "99999999999999999999".toList] ∧
      ¬ (digitsValue "99999999999999999999".toList : Int) < (2 : Int) ^ 63 ∧
      parseInt64 "99999999999999999999".toList = none) := by
  decide

/-- C7 (as amended): for every string that `Match` accepts, the three capture
groups of the returned pattern are found, the digits captured as the number
are a non-empty run of ASCII decimal digits (they denote a natural number,
which may be zero and may exceed the range of the `int64` field `Number`), and
the captured owner and repo are non-empty and free of `/`. -/
theorem Match_capture_groups (s : List Char) (p : URLPattern) (h : Match s = some p) :
    ∃ owner repo number, p.Pattern.FindStringSubmatch 3 s = some [s, owner, repo, number] ∧
      number ≠ [] ∧ (∀ c ∈ number, c.isDigit = true) ∧ owner ≠ [] ∧ '/' ∉ owner ∧ repo ≠ [] ∧
      '/' ∉ repo := by
  obtain ⟨kind, -, hp, o, r, n, hs⟩ := Match_some_shape h
  refine ⟨o, r, n, ?_, hs.2.2.2.2.2.1, hs.2.2.2.2.2.2, hs.2.1, hs.2.2.1, hs.2.2.2.1, hs.2.2.2.2.1⟩
  rw [hp]
  exact FindStringSubmatch_urlRegexp_of_shape hs

theorem Match_capture_groups_witness :
    Match "https://github.com/golang/go/discussions/42".toList = some discussionPattern ∧
      ∃ owner repo number,
        discussionPattern.Pattern.FindStringSubmatch 3 "https://github.com/golang/go/discussions/42".toList =
            some ["https://github.com/golang/go/discussions/42".toList, owner, repo, number] ∧
          number ≠ [] ∧ (∀ c ∈ number, c.isDigit = true) ∧ owner ≠ [] ∧ '/' ∉ owner ∧ repo ≠ [] ∧
          '/' ∉ repo :=
  ⟨by decide, Match_capture_groups _ _ (by decide)⟩

/-! ## Letter case, scheme and host -/

theorem toLower_eq_slash (c : Char) (h : c.toLower = '/') : c = '/' := by
  unfold Char.toLower at h
  simp only at h
  split at h
  · rename_i hr
    exfalso
    generalize c.toNat = n at hr h
    obtain ⟨h1, h2⟩ := hr
    interval_cases n <;> exact absurd h (by decide)
  · exact h

theorem not_mem_of_map_toLower_eq {a b : List Char} (h : b.map Char.toLower = a.map Char.toLower)
    (ha : '/' ∉ a) : '/' ∉ b := by
  intro hb
  have h1 : Char.toLower '/' ∈ b.map Char.toLower := List.mem_map_of_mem _ hb
  rw [h] at h1
  obtain ⟨c, hc, hcl⟩ := List.mem_map.mp h1
  have : c = '/' := toLower_eq_slash c hcl
  exact ha (this ▸ hc)

theorem ne_nil_of_map_toLower_eq {a b : List Char} (h : b.map Char.toLower = a.map Char.toLower)
    (ha : a ≠ []) : b ≠ [] := by
  rintro rfl
  simp only [List.map_nil] at h
  exact ha (List.map_eq_nil_iff.mp h.symm)

/-- The owner, the repo and the rest of the path of a URL of the shape are the
segments of the URL between the slashes after the host. -/
theorem IsResourceURL.segments {kind s o r n pre o2 r2 t2 : List Char} (h : IsResourceURL kind s o r n)
    (hpre : pre = "http://github.com/".toList ∨ pre = "https://github.com/".toList)
    (hs : s = pre ++ (o2 ++ '/' :: (r2 ++ '/' :: t2))) (ho2 : '/' ∉ o2) (hr2 : '/' ∉ r2) :
    o = o2 ∧ r = r2 ∧ kind ++ '/' :: n = t2 := by
  have e : o ++ '/' :: (r ++ '/' :: (kind ++ '/' :: n)) = o2 ++ '/' :: (r2 ++ '/' :: t2) := by
    obtain ⟨h1, -⟩ := h
    rcases h1 with e1 | e1 <;> rcases hpre with rfl | rfl <;> rw [hs] at e1
    · exact (List.append_cancel_left e1).symm
    · exact absurd e1 (by simp)
    · exact absurd e1 (by simp)
    · exact (List.append_cancel_left e1).symm
  obtain ⟨e1, e2⟩ := append_cons_inj h.2.2.1 ho2 e
  obtain ⟨e3, e4⟩ := append_cons_inj h.2.2.2.2.1 hr2 e2
  exact ⟨e1, e3, e4⟩

theorem kindSegments_no_upper (k : List Char) (hk : k ∈ kindSegments) (c : Char) (hc : c ∈ k) :
    c.isUpper = false := by
  simp only [kindSegments, List.mem_cons, List.mem_singleton, List.not_mem_nil, or_false] at hk
  rcases hk with rfl | rfl | rfl <;> revert c <;> decide

/-- C8: classification is case-sensitive on the kind segment. For every owner
and repo without `/`, every non-empty digit string `d` and every segment `k`
that is `issues`, `pull` or `discussions` only after lower-casing (`k` itself
contains an upper-case letter), `Match` returns `nil` on
`https://github.com/{owner}/{repo}/{k}/{d}`; whereas changing the letter case
of the owner or the repo of an accepted URL leaves it accepted by the same
pattern. -/
theorem Match_case_sensitivity (owner repo k d pre tail owner2 repo2 : List Char) (p : URLPattern) :
    ('/' ∉ owner → '/' ∉ repo → d ≠ [] → (∀ c ∈ d, c.isDigit = true) →
      k.map Char.toLower ∈ kindSegments → (∃ c ∈ k, c.isUpper = true) →
      Match ("https://github.com/".toList ++ (owner ++ '/' :: (repo ++ '/' :: (k ++ '/' :: d)))) = none) ∧
    ((pre = "http://github.com/".toList ∨ pre = "https://github.com/".toList) →
      '/' ∉ owner → '/' ∉ repo →
      Match (pre ++ (owner ++ '/' :: (repo ++ '/' :: tail))) = some p →
      owner2.map Char.toLower = owner.map Char.toLower →
      repo2.map Char.toLower = repo.map Char.toLower →
      Match (pre ++ (owner2 ++ '/' :: (repo2 ++ '/' :: tail))) = some p) := by
  constructor
  · intro ho hr _ _ hk hup
    cases hm : Match ("https://github.com/".toList ++ (owner ++ '/' :: (repo ++ '/' :: (k ++ '/' :: d)))) with
    | none => rfl
    | some q =>
      exfalso
      obtain ⟨k', hk', -, o', r', n', hs⟩ := Match_some_shape hm
      obtain ⟨-, -, e⟩ := hs.segments (Or.inr rfl) rfl ho hr
      have hks : '/' ∉ k := by
        intro hmem
        have h1 : Char.toLower '/' ∈ k.map Char.toLower := List.mem_map_of_mem _ hmem
        exact kindSegments_no_slash _ hk h1
      obtain ⟨e1, -⟩ := append_cons_inj (kindSegments_no_slash k' hk') hks e
      subst e1
      obtain ⟨c, hc, hcu⟩ := hup
      rw [kindSegments_no_upper k' hk' c hc] at hcu
      exact absurd hcu (by decide)
  · intro hpre ho hr hm hoc hrc
    obtain ⟨kind, hkind, -, o, r, n, hs⟩ := Match_some_shape hm
    obtain ⟨e1, e2, e3⟩ := hs.segments hpre rfl ho hr
    subst e1 e2 e3
    have hs2 : IsResourceURL kind (pre ++ (owner2 ++ '/' :: (repo2 ++ '/' :: (kind ++ '/' :: n))))
        owner2 repo2 n := by
      refine ⟨?_, ne_nil_of_map_toLower_eq hoc hs.2.1, not_mem_of_map_toLower_eq hoc hs.2.2.1,
        ne_nil_of_map_toLower_eq hrc hs.2.2.2.1, not_mem_of_map_toLower_eq hrc hs.2.2.2.2.1,
        hs.2.2.2.2.2⟩
      rcases hpre with rfl | rfl
      · exact Or.inl rfl
      · exact Or.inr rfl
    exact Match_same_kind hm (kindSegments_no_slash kind hkind) hs hs2

theorem Match_case_sensitivity_witness :
    Match "https://github.com/golang/go/Issues/12345".toList = none ∧
      Match "https://github.com/golang/go/issues/12345".toList = some issuePattern ∧
      Match "https://github.com/GoLang/GO/issues/12345".toList = some issuePattern :=
  ⟨(Match_case_sensitivity "golang".toList "go".toList "Issues".toList "12345".toList [] [] [] []
      issuePattern).1 (by decide) (by decide) (by decide) (by decide) (by decide) (by decide),
    by decide,
    (Match_case_sensitivity "golang".toList "go".toList [] [] "https://github.com/".toList
      "issues/12345".toList "GoLang".toList "GO".toList issuePattern).2 (by decide) (by decide)
      (by decide) (by decide) (by decide) (by decide)⟩

/-- C9: every string that `Match` accepts begins with `http://github.com/` or
`https://github.com/`, so any other scheme (such as `ftp`) and any other host
(such as `www.github.com`) is rejected; and for every accepted `https://...`
URL the corresponding `http://...` URL is accepted by the same pattern. -/
theorem Match_scheme_and_host (s t : List Char) (p : URLPattern) :
    (Match s = some p →
      "http://github.com/".toList <+: s ∨ "https://github.com/".toList <+: s) ∧
    (¬ ("http://github.com/".toList <+: s ∨ "https://github.com/".toList <+: s) → Match s = none) ∧
    (Match ("https://".toList ++ t) = some p → Match ("http://".toList ++ t) = some p) ∧
    Match "ftp://github.com/golang/go/issues/1".toList = none ∧
    Match "https://www.github.com/golang/go/issues/1".toList = none := by
  have key : ∀ q, Match s = some q →
      "http://github.com/".toList <+: s ∨ "https://github.com/".toList <+: s := by
    intro q hm
    obtain ⟨kind, -, -, o, r, n, hs, -⟩ := Match_some_shape hm
    rcases hs with e | e
    · exact Or.inl ⟨_, e.symm⟩
    · exact Or.inr ⟨_, e.symm⟩
  refine ⟨key p, ?_, ?_, by decide, by decide⟩
  · intro hn
    cases hm : Match s with
    | none => rfl
    | some q => exact absurd (key q hm) hn
  · intro hm
    obtain ⟨kind, hkind, -, o, r, n, hs⟩ := Match_some_shape hm
    have hs2 : IsResourceURL kind ("http://".toList ++ t) o r n := by
      refine ⟨Or.inl ?_, hs.2⟩
      rcases hs.1 with e | e
      · exact absurd e (by simp)
      · have e2 : t = "github.com/".toList ++ (o ++ '/' :: (r ++ '/' :: (kind ++ '/' :: n))) := by
          simpa using e
        rw [e2]; rfl
    exact Match_same_kind hm (kindSegments_no_slash kind hkind) hs hs2

theorem Match_scheme_and_host_witness :
    Match "https://github.com/golang/go/issues/1".toList = some issuePattern ∧
      "https://github.com/".toList <+: "https://github.com/golang/go/issues/1".toList ∧
      Match "http://github.com/golang/go/issues/1".toList = some issuePattern :=
  ⟨by decide,
    ((Match_scheme_and_host "https://github.com/golang/go/issues/1".toList [] issuePattern).1
      (by decide)).resolve_left (by decide),
    (Match_scheme_and_host [] "github.com/golang/go/issues/1".toList issuePattern).2.2.1 (by decide)⟩

/-! ## `SupportedTypes` -/

/-- C10: `SupportedTypes()` returns exactly the three-element sequence
`[issue, pr, discussion]`: one entry per element of `SupportedPatterns`, in
pattern-declaration order, with no duplicates. -/
theorem SupportedTypes_eq :
    SupportedTypes = ["issue", "pr", "discussion"] ∧
      SupportedTypes = [ResourceTypeIssue, ResourceTypePR, ResourceTypeDiscussion] ∧
      SupportedTypes.length = SupportedPatterns.length ∧ SupportedTypes.length = 3 ∧
      SupportedTypes = SupportedPatterns.map (fun p => p.Type') ∧ SupportedTypes.Nodup := by
  refine ⟨rfl, rfl, rfl, rfl, rfl, by decide⟩

/-! ## The resource model -/

/-- C11: for every Issue, PullRequest and Discussion value, `GetCommentCount`
returns the stored `TotalComments` field and does not depend on the `Comments`
sequence: two resources that differ only in `Comments` have the same
`GetCommentCount`, and `GetCommentCount` may differ from the length of
`GetComments`. -/
theorem GetCommentCount_stored (i : Issue) (p : PullRequest) (d : Discussion) (cs : List Comment) :
    (i.GetCommentCount = i.TotalComments ∧ p.GetCommentCount = p.TotalComments ∧
      d.GetCommentCount = d.TotalComments) ∧
    (({ i with Comments := cs }).GetCommentCount = i.GetCommentCount ∧
      ({ p with Comments := cs }).GetCommentCount = p.GetCommentCount ∧
      ({ d with Comments := cs }).GetCommentCount = d.GetCommentCount) ∧
    ((∃ i0 : Issue, i0.GetCommentCount ≠ (i0.GetComments.length : Int)) ∧
      (∃ p0 : PullRequest, p0.GetCommentCount ≠ (p0.GetComments.length : Int)) ∧
      (∃ d0 : Discussion, d0.GetCommentCount ≠ (d0.GetComments.length : Int))) := by
  refine ⟨⟨rfl, rfl, rfl⟩, ⟨rfl, rfl, rfl⟩, ⟨{ TotalComments := 250, Comments := [{ ID := 1 }] }, ?_⟩,
    ⟨{ TotalComments := 250, Comments := [{ ID := 1 }] }, ?_⟩,
    ⟨{ TotalComments := 250, Comments := [{ ID := 1 }] }, ?_⟩⟩ <;> decide

/-- C12 (counterexample): the zero value of `Issue` has the empty string as
status, an `Issue` and a `Discussion` may carry the status `merged`, and a
`PullRequest` may carry a status that is none of the three constants. -/
theorem GetStatus_outside_states :
    (({} : Issue).GetStatus ≠ StatusOpen ∧ ({} : Issue).GetStatus ≠ StatusClosed) ∧
    (({ State := StatusMerged } : Issue).GetStatus ≠ StatusOpen ∧
      ({ State := StatusMerged } : Issue).GetStatus ≠ StatusClosed) ∧
    (({ State := StatusMerged } : Discussion).GetStatus ≠ StatusOpen ∧
      ({ State := StatusMerged } : Discussion).GetStatus ≠ StatusClosed) ∧
    (({ State := "draft" } : PullRequest).GetStatus ≠ StatusOpen ∧
      ({ State := "draft" } : PullRequest).GetStatus ≠ StatusClosed ∧
      ({ State := "draft" } : PullRequest).GetStatus ≠ StatusMerged) := by
  decide

/-- C12 (as amended): for every Issue, Discussion and PullRequest value,
`GetStatus` returns the stored `State` unchanged; so it is open or closed (or
merged, for a PullRequest) exactly when the stored `State` is, and any other
stored string is returned as it is. -/
theorem GetStatus_eq_State (i : Issue) (d : Discussion) (p : PullRequest) :
    (i.GetStatus = i.State ∧ d.GetStatus = d.State ∧ p.GetStatus = p.State) ∧
    ((i.GetStatus = StatusOpen ∨ i.GetStatus = StatusClosed) ↔
      (i.State = StatusOpen ∨ i.State = StatusClosed)) ∧
    ((d.GetStatus = StatusOpen ∨ d.GetStatus = StatusClosed) ↔
      (d.State = StatusOpen ∨ d.State = StatusClosed)) ∧
    ((p.GetStatus = StatusOpen ∨ p.GetStatus = StatusClosed ∨ p.GetStatus = StatusMerged) ↔
      (p.State = StatusOpen ∨ p.State = StatusClosed ∨ p.State = StatusMerged)) :=
  ⟨⟨rfl, rfl, rfl⟩, Iff.rfl, Iff.rfl, Iff.rfl⟩

/-- C13: `GetType` is a constant of the variant, independent of every field:
it returns issue for every Issue, pr for every PullRequest and discussion for
every Discussion; the three values are pairwise distinct, and each is a member
of `SupportedTypes`. -/
theorem GetType_constant (i i2 : Issue) (p p2 : PullRequest) (d d2 : Discussion) :
    (i.GetType = "issue" ∧ p.GetType = "pr" ∧ d.GetType = "discussion") ∧
    (i.GetType = ResourceTypeIssue ∧ p.GetType = ResourceTypePR ∧
      d.GetType = ResourceTypeDiscussion) ∧
    (i.GetType = i2.GetType ∧ p.GetType = p2.GetType ∧ d.GetType = d2.GetType) ∧
    (i.GetType ≠ p.GetType ∧ i.GetType ≠ d.GetType ∧ p.GetType ≠ d.GetType) ∧
    (i.GetType ∈ SupportedTypes ∧ p.GetType ∈ SupportedTypes ∧ d.GetType ∈ SupportedTypes) := by
  refine ⟨⟨rfl, rfl, rfl⟩, ⟨rfl, rfl, rfl⟩, ⟨rfl, rfl, rfl⟩, ?_, ?_⟩
  · simp only [Issue.GetType, PullRequest.GetType, Discussion.GetType]
    decide
  · simp only [Issue.GetType, PullRequest.GetType, Discussion.GetType]
    decide

/-- C14: for each of Issue, PullRequest and Discussion, every shared accessor
is a projection of the stored field of the same meaning: `GetStatus` is `State`,
`GetTitle` is `Title`, `GetAuthor` is `Author`, `GetCreatedAt` is `CreatedAt`,
`GetUpdatedAt` is `UpdatedAt`, `GetBody` is `Body`, `GetComments` is `Comments`
(the same elements in the same order) and `GetReactions` is `Reactions`; the
value is not aggregated, normalised or validated. -/
theorem accessors_are_projections (i : Issue) (p : PullRequest) (d : Discussion) :
    (i.GetStatus = i.State ∧ i.GetTitle = i.Title ∧ i.GetAuthor = i.Author ∧
      i.GetCreatedAt = i.CreatedAt ∧ i.GetUpdatedAt = i.UpdatedAt ∧ i.GetBody = i.Body ∧
      i.GetComments = i.Comments ∧ i.GetReactions = i.Reactions) ∧
    (p.GetStatus = p.State ∧ p.GetTitle = p.Title ∧ p.GetAuthor = p.Author ∧
      p.GetCreatedAt = p.CreatedAt ∧ p.GetUpdatedAt = p.UpdatedAt ∧ p.GetBody = p.Body ∧
      p.GetComments = p.Comments ∧ p.GetReactions = p.Reactions) ∧
    (d.GetStatus = d.State ∧ d.GetTitle = d.Title ∧ d.GetAuthor = d.Author ∧
      d.GetCreatedAt = d.CreatedAt ∧ d.GetUpdatedAt = d.UpdatedAt ∧ d.GetBody = d.Body ∧
      d.GetComments = d.Comments ∧ d.GetReactions = d.Reactions) :=
  ⟨⟨rfl, rfl, rfl, rfl, rfl, rfl, rfl, rfl⟩, ⟨rfl, rfl, rfl, rfl, rfl, rfl, rfl, rfl⟩,
    ⟨rfl, rfl, rfl, rfl, rfl, rfl, rfl, rfl⟩⟩

/-! ## Error messages -/

/-- C15: for every URL string `u`, the message of `ErrUnsupportedURL{URL: u}`
is `unsupported URL type: ` followed by `u` and by
` (supported: issues, pull requests, discussions)`: it echoes the input
unchanged and lists one supported kind for each of the three entries of
`SupportedTypes`. -/
theorem ErrUnsupportedURL_message (u : List Char) :
    ErrUnsupportedURL.Error { URL := u } =
        "unsupported URL type: ".toList ++ u ++
          " (supported: issues, pull requests, discussions)".toList ∧
      " (supported: issues, pull requests, discussions)".toList =
        " (supported: ".toList ++ ", ".toList.intercalate listedKinds ++ ")".toList ∧
      listedKinds.length = SupportedTypes.length ∧ SupportedTypes.length = 3 := by
  refine ⟨rfl, by decide, rfl, rfl⟩

/-! ## Configuration -/

/-- C16: `Config.Validate` returns `nil` if and only if `GitHubToken` is
non-empty and `Output.Format` is non-empty; otherwise it returns a
`ValidationError`, whose `Field` is `github_token` whenever the token is empty
(also when the format is empty too) and `output.format` only when the token is
non-empty and the format is empty. -/
theorem Validate_nil_iff (c : ConfigTypes.Config) :
    (c.Validate = none ↔ c.GitHubToken ≠ "" ∧ c.Output.Format ≠ "") ∧
    (c.GitHubToken = "" →
      c.Validate = some { Field := "github_token", Message := "GitHub token is required" }) ∧
    (c.GitHubToken ≠ "" → c.Output.Format = "" →
      c.Validate = some { Field := "output.format", Message := "Output format is required" }) ∧
    (∀ e, c.Validate = some e →
      (e.Field = "github_token" ↔ c.GitHubToken = "") ∧
      (e.Field = "output.format" ↔ c.GitHubToken ≠ "" ∧ c.Output.Format = "")) := by
  unfold ConfigTypes.Config.Validate
  by_cases ht : c.GitHubToken = "" <;> by_cases hf : c.Output.Format = "" <;>
    simp [ht, hf]

theorem Validate_nil_iff_witness :
    ({ GitHubToken := "", Output := { Format := "" } } : ConfigTypes.Config).Validate =
        some { Field := "github_token", Message := "GitHub token is required" } ∧
      ({ GitHubToken := "ghp_x", Output := { Format := "" } } : ConfigTypes.Config).Validate =
        some { Field := "output.format", Message := "Output format is required" } ∧
      ({ GitHubToken := "ghp_x", Output := { Format := "json" } } : ConfigTypes.Config).Validate = none :=
  ⟨(Validate_nil_iff _).2.1 (by decide), (Validate_nil_iff _).2.2.1 (by decide) (by decide),
    (Validate_nil_iff _).1.mpr (by decide)⟩

/-- C20: for every `Config`, `APITimeoutOrDefault` returns `APITimeout` when it
is greater than zero and 30 seconds otherwise, so that the result is always
strictly positive; for the `Config` returned by `DefaultConfig` it is 30
seconds. -/
theorem APITimeoutOrDefault_spec (c : ConfigMain.Config) :
    (0 < c.APITimeout → c.APITimeoutOrDefault = c.APITimeout) ∧
    (¬ 0 < c.APITimeout → c.APITimeoutOrDefault = 30 * ConfigMain.Second) ∧
    0 < c.APITimeoutOrDefault ∧
    ConfigMain.DefaultConfig.APITimeoutOrDefault = 30 * ConfigMain.Second ∧
    30 * ConfigMain.Second = (30000000000 : Int) := by
  unfold ConfigMain.Config.APITimeoutOrDefault
  refine ⟨fun h => by simp [h], fun h => by simp [h], ?_, by decide, by decide⟩
  by_cases h : c.APITimeout > 0
  · simp [h]
  · simp only [h, if_false]; decide

theorem APITimeoutOrDefault_spec_witness :
    ({ APITimeout := 5 * ConfigMain.Second } : ConfigMain.Config).APITimeoutOrDefault =
        5 * ConfigMain.Second ∧
      ({ APITimeout := -1 } : ConfigMain.Config).APITimeoutOrDefault = 30 * ConfigMain.Second :=
  ⟨(APITimeoutOrDefault_spec _).1 (by decide), (APITimeoutOrDefault_spec _).2.1 (by decide)⟩

/-! ## The command registry -/

theorem mapGet_mapSet_self {V : Type} (m : List (String × V)) (k : String) (v : V) :
    Cli.mapGet (Cli.mapSet m k v) k = some v := by
  induction m with
  | nil => simp [Cli.mapSet, Cli.mapGet]
  | cons e rest ih =>
    by_cases h : e.1 = k
    · simp [Cli.mapSet, Cli.mapGet, h]
    · simp [Cli.mapSet, Cli.mapGet, h, ih]

theorem mapGet_mapSet_of_ne {V : Type} (m : List (String × V)) (k n : String) (v : V) (hn : n ≠ k) :
    Cli.mapGet (Cli.mapSet m k v) n = Cli.mapGet m n := by
  have hk : ¬ k = n := fun e => hn e.symm
  induction m with
  | nil => simp [Cli.mapSet, Cli.mapGet, hk]
  | cons e rest ih =>
    by_cases h : e.1 = k
    · have h2 : ¬ e.1 = n := fun e2 => hn (e2.symm.trans h)
      simp [Cli.mapSet, Cli.mapGet, h, hk, h2]
    · by_cases h3 : e.1 = n
      · simp [Cli.mapSet, Cli.mapGet, h3, hn]
      · simp [Cli.mapSet, Cli.mapGet, h, h3, ih]

theorem length_mapSet_of_absent {V : Type} (m : List (String × V)) (k : String) (v : V)
    (h : Cli.mapGet m k = none) : (Cli.mapSet m k v).length = m.length + 1 := by
  induction m with
  | nil => simp [Cli.mapSet]
  | cons e rest ih =>
    by_cases hk : e.1 = k
    · simp [Cli.mapGet, hk] at h
    · simp only [Cli.mapGet, hk, if_false] at h
      simp [Cli.mapSet, hk, ih h]

theorem Get_snd_eq_true_iff {F R : Type} (cr : Cli.CommandRegistry F R) (n : String) :
    (cr.Get n).2 = true ↔ ∃ c, Cli.mapRead cr.commands n = some c := by
  unfold Cli.CommandRegistry.Get
  cases h : Cli.mapRead cr.commands n <;> simp

theorem Get_snd_eq_false_iff {F R : Type} (cr : Cli.CommandRegistry F R) (n : String) :
    (cr.Get n).2 = false ↔ Cli.mapRead cr.commands n = none := by
  unfold Cli.CommandRegistry.Get
  cases h : Cli.mapRead cr.commands n <;> simp

theorem Register_of_absent {F R : Type} (cr : Cli.CommandRegistry F R) (cmd : Cli.Command F R)
    (entries : List (String × Cli.Command F R)) (hc : cr.commands = some entries)
    (h : Cli.mapRead cr.commands cmd.Name = none) :
    cr.Register cmd = some ({ commands := some (Cli.mapSet entries cmd.Name cmd) }, none) := by
  unfold Cli.CommandRegistry.Register
  rw [h]
  simp only [hc]

theorem Register_of_nil {F R : Type} (cr : Cli.CommandRegistry F R) (cmd : Cli.Command F R)
    (hc : cr.commands = none) : cr.Register cmd = none := by
  simp [Cli.CommandRegistry.Register, hc, Cli.mapRead]

theorem Register_of_present {F R : Type} (cr : Cli.CommandRegistry F R) (cmd c : Cli.Command F R)
    (h : Cli.mapRead cr.commands cmd.Name = some c) :
    cr.Register cmd =
      some (cr, some (Sprintf "command %s already registered".toList [cmd.Name.toList])) := by
  simp [Cli.CommandRegistry.Register, h]

/-- What a call of `Register` that returns without error did. -/
theorem Register_success {F R : Type} {cr cr' : Cli.CommandRegistry F R} {cmd : Cli.Command F R}
    (h : cr.Register cmd = some (cr', none)) :
    ∃ entries, cr.commands = some entries ∧ Cli.mapGet entries cmd.Name = none ∧
      cr' = { commands := some (Cli.mapSet entries cmd.Name cmd) } := by
  cases hg : Cli.mapRead cr.commands cmd.Name with
  | some x => rw [Register_of_present cr cmd x hg] at h; simp at h
  | none =>
    cases hc : cr.commands with
    | none => rw [Register_of_nil cr cmd hc] at h; simp at h
    | some entries =>
      rw [Register_of_absent cr cmd entries hc hg] at h
      simp only [Option.some.injEq, Prod.mk.injEq, and_true] at h
      rw [hc] at hg
      exact ⟨entries, rfl, hg, h.symm⟩

/-- C17: `Register(cmd)` returns an error if and only if a command with the
name `cmd.Name` is already registered, and in that case the registry is
unchanged: `Get(cmd.Name)` still returns the command registered first, and the
lookup of every other name is unaffected. -/
theorem Register_error_iff {F R : Type} (cr : Cli.CommandRegistry F R) (cmd first : Cli.Command F R) :
    ((∃ cr' e, cr.Register cmd = some (cr', some e)) ↔ (cr.Get cmd.Name).2 = true) ∧
    (∀ cr' e, cr.Register cmd = some (cr', some e) →
      cr' = cr ∧ ∀ n, cr'.Get n = cr.Get n) ∧
    (∀ r1, cr.Register first = some (r1, none) → cmd.Name = first.Name →
      (∃ e, r1.Register cmd = some (r1, some e)) ∧ r1.Get cmd.Name = (some first, true)) := by
  have hsame : ∀ cr' e, cr.Register cmd = some (cr', some e) → cr' = cr := by
    intro cr' e h
    cases hg : Cli.mapRead cr.commands cmd.Name with
    | some x =>
      rw [Register_of_present cr cmd x hg] at h
      simp only [Option.some.injEq, Prod.mk.injEq] at h
      exact h.1.symm
    | none =>
      cases hc : cr.commands with
      | none => rw [Register_of_nil cr cmd hc] at h; simp at h
      | some entries => rw [Register_of_absent cr cmd entries hc hg] at h; simp at h
  refine ⟨?_, fun cr' e h => ⟨hsame cr' e h, fun n => by rw [hsame cr' e h]⟩, ?_⟩
  · rw [Get_snd_eq_true_iff]
    constructor
    · rintro ⟨cr', e, h⟩
      cases hg : Cli.mapRead cr.commands cmd.Name with
      | some x => exact ⟨x, rfl⟩
      | none =>
        cases hc : cr.commands with
        | none => rw [Register_of_nil cr cmd hc] at h; simp at h
        | some entries => rw [Register_of_absent cr cmd entries hc hg] at h; simp at h
    · rintro ⟨x, hx⟩
      exact ⟨cr, _, Register_of_present cr cmd x hx⟩
  · intro r1 h1 hname
    obtain ⟨entries, -, -, rfl⟩ := Register_success h1
    have hg : Cli.mapRead (some (Cli.mapSet entries first.Name first)) cmd.Name = some first := by
      rw [hname]; exact mapGet_mapSet_self _ _ _
    refine ⟨⟨_, Register_of_present _ cmd first hg⟩, ?_⟩
    simp only [Cli.CommandRegistry.Get, hg]

theorem Register_error_iff_witness :
    ((Cli.NewCommandRegistry : Cli.CommandRegistry Unit Unit).Register ⟨"convert", "first", (), ()⟩ =
        some ({ commands := some [("convert", ⟨"convert", "first", (), ()⟩)] }, none) ∧
      (⟨"convert", "second", (), ()⟩ : Cli.Command Unit Unit).Name =
        (⟨"convert", "first", (), ()⟩ : Cli.Command Unit Unit).Name) ∧
      (∃ e, ({ commands := some [("convert", ⟨"convert", "first", (), ()⟩)] } :
          Cli.CommandRegistry Unit Unit).Register ⟨"convert", "second", (), ()⟩ =
        some ({ commands := some [("convert", ⟨"convert", "first", (), ()⟩)] }, some e)) ∧
      ({ commands := some [("convert", ⟨"convert", "first", (), ()⟩)] } :
          Cli.CommandRegistry Unit Unit).Get "convert" = (some ⟨"convert", "first", (), ()⟩, true) :=
  ⟨⟨rfl, rfl⟩,
    (Register_error_iff (Cli.NewCommandRegistry : Cli.CommandRegistry Unit Unit)
      ⟨"convert", "second", (), ()⟩ ⟨"convert", "first", (), ()⟩).2.2 _ rfl rfl⟩

/-- C18: for every registry and every command whose name is not registered in
it, after `Register(cmd)` succeeds `Get(cmd.Name)` returns `(cmd, true)`, `Get(n)`
is unchanged for every other name `n`, and `List()` has exactly one more element;
on a registry from `NewCommandRegistry`, `Get` of any name returns `(nil, false)`
and `List()` is empty. `Register` does succeed when the map of the registry is
not `nil`, which holds for `NewCommandRegistry` and is kept by `Register`. -/
theorem Register_fresh {F R : Type} (cr : Cli.CommandRegistry F R) (cmd : Cli.Command F R)
    (h : (cr.Get cmd.Name).2 = false) :
    (∀ cr', cr.Register cmd = some (cr', none) →
      cr'.Get cmd.Name = (some cmd, true) ∧ (∀ n, n ≠ cmd.Name → cr'.Get n = cr.Get n) ∧
      cr'.List.length = cr.List.length + 1 ∧ cr'.commands ≠ none) ∧
    (cr.commands ≠ none → ∃ cr', cr.Register cmd = some (cr', none)) ∧
    (∀ n, (Cli.NewCommandRegistry : Cli.CommandRegistry F R).Get n = (none, false)) ∧
    (Cli.NewCommandRegistry : Cli.CommandRegistry F R).List = [] ∧
    (Cli.NewCommandRegistry : Cli.CommandRegistry F R).commands ≠ none := by
  rw [Get_snd_eq_false_iff] at h
  refine ⟨?_, ?_, fun n => rfl, rfl, by simp [Cli.NewCommandRegistry]⟩
  · intro cr' hr
    obtain ⟨entries, hc, habs, rfl⟩ := Register_success hr
    refine ⟨?_, ?_, ?_, by simp⟩
    · simp only [Cli.CommandRegistry.Get, Cli.mapRead, mapGet_mapSet_self]
    · intro n hn
      simp only [Cli.CommandRegistry.Get, Cli.mapRead, hc, mapGet_mapSet_of_ne _ _ _ _ hn]
    · simp only [Cli.CommandRegistry.List, hc, List.length_map]
      exact length_mapSet_of_absent _ _ _ habs
  · intro hne
    cases hc : cr.commands with
    | none => exact absurd hc hne
    | some entries => exact ⟨_, Register_of_absent cr cmd entries hc h⟩

theorem Register_fresh_witness :
    ((Cli.NewCommandRegistry : Cli.CommandRegistry Unit Unit).Get "convert").2 = false ∧
      (Cli.NewCommandRegistry : Cli.CommandRegistry Unit Unit).Register ⟨"convert", "first", (), ()⟩ =
        some ({ commands := some [("convert", ⟨"convert", "first", (), ()⟩)] }, none) ∧
      ({ commands := some [("convert", ⟨"convert", "first", (), ()⟩)] } :
          Cli.CommandRegistry Unit Unit).Get "convert" = (some ⟨"convert", "first", (), ()⟩, true) ∧
      ({ commands := some [("convert", ⟨"convert", "first", (), ()⟩)] } :
          Cli.CommandRegistry Unit Unit).List.length =
        (Cli.NewCommandRegistry : Cli.CommandRegistry Unit Unit).List.length + 1 :=
  ⟨rfl, rfl,
    ((Register_fresh (Cli.NewCommandRegistry : Cli.CommandRegistry Unit Unit)
      ⟨"convert", "first", (), ()⟩ rfl).1 _ rfl).1,
    ((Register_fresh (Cli.NewCommandRegistry : Cli.CommandRegistry Unit Unit)
      ⟨"convert", "first", (), ()⟩ rfl).1 _ rfl).2.2.1⟩

/-! ## Leading zeros -/

theorem digitsValue_zeros_append (k : Nat) (n : List Char) :
    digitsValue (List.replicate k '0' ++ n) = digitsValue n := by
  have h0 : ∀ j : Nat, List.foldl (fun acc c => acc * 10 + (c.toNat - '0'.toNat)) 0
      (List.replicate j '0') = 0 := by
    intro j
    induction j with
    | zero => rfl
    | succ j ih => simpa [List.replicate_succ] using ih
  simp only [digitsValue, List.foldl_append, h0]

/-- C19: leading zeros in the number are neither rejected nor a matching
concern. For every URL accepted by `Match`, with `pre` the part before the
number group `n`, inserting any number `k` of `0` characters immediately before
the digits yields a URL accepted by the same pattern, with the same owner and
repo groups and a number group that denotes the same integer; for `k > 0` the
two URL strings are distinct. -/
theorem Match_leading_zeros (pre n o r : List Char) (k : Nat) (p : URLPattern)
    (hm : Match (pre ++ n) = some p)
    (hc : p.Pattern.FindStringSubmatch 3 (pre ++ n) = some [pre ++ n, o, r, n]) :
    Match (pre ++ (List.replicate k '0' ++ n)) = some p ∧
      p.Pattern.FindStringSubmatch 3 (pre ++ (List.replicate k '0' ++ n)) =
        some [pre ++ (List.replicate k '0' ++ n), o, r, List.replicate k '0' ++ n] ∧
      digitsValue (List.replicate k '0' ++ n) = digitsValue n ∧
      (0 < k → pre ++ (List.replicate k '0' ++ n) ≠ pre ++ n) := by
  obtain ⟨kind, hkind, hp, o', r', n', hs⟩ := Match_some_shape hm
  have hf := FindStringSubmatch_urlRegexp_of_shape hs
  rw [hp, hf] at hc
  simp only [Option.some.injEq, List.cons.injEq, and_true, true_and] at hc
  obtain ⟨rfl, rfl, rfl⟩ := hc
  have hpre : ∃ P, (P = "http://github.com/".toList ∨ P = "https://github.com/".toList) ∧
      pre = P ++ (o' ++ '/' :: (r' ++ '/' :: (kind ++ ['/']))) := by
    rcases hs.1 with e | e
    · have e2 : pre ++ n' =
          ("http://github.com/".toList ++ (o' ++ '/' :: (r' ++ '/' :: (kind ++ ['/'])))) ++ n' := by
        rw [e]; simp
      exact ⟨_, Or.inl rfl, List.append_cancel_right e2⟩
    · have e2 : pre ++ n' =
          ("https://github.com/".toList ++ (o' ++ '/' :: (r' ++ '/' :: (kind ++ ['/'])))) ++ n' := by
        rw [e]; simp
      exact ⟨_, Or.inr rfl, List.append_cancel_right e2⟩
  obtain ⟨P, hP, rfl⟩ := hpre
  have hs2 : IsResourceURL kind
      (P ++ (o' ++ '/' :: (r' ++ '/' :: (kind ++ ['/']))) ++ (List.replicate k '0' ++ n'))
      o' r' (List.replicate k '0' ++ n') := by
    refine ⟨?_, hs.2.1, hs.2.2.1, hs.2.2.2.1, hs.2.2.2.2.1, ?_, ?_⟩
    · rcases hP with rfl | rfl
      · left; simp
      · right; simp
    · intro h
      exact hs.2.2.2.2.2.1 (List.append_eq_nil.mp h).2
    · intro c hc
      rcases List.mem_append.mp hc with h | h
      · rw [(List.mem_replicate.mp h).2]; rfl
      · exact hs.2.2.2.2.2.2 c h
  refine ⟨Match_same_kind hm (kindSegments_no_slash kind hkind) hs hs2, ?_,
    digitsValue_zeros_append k n', ?_⟩
  · rw [hp]
    exact FindStringSubmatch_urlRegexp_of_shape hs2
  · intro hk heq
    have := congrArg List.length heq
    simp only [List.length_append, List.length_replicate] at this
    omega

theorem Match_leading_zeros_witness :
    (Match ("https://github.com/golang/go/issues/".toList ++ "42".toList) = some issuePattern ∧
      issuePattern.Pattern.FindStringSubmatch 3
          ("https://github.com/golang/go/issues/".toList ++ "42".toList) =
        some ["https://github.com/golang/go/issues/".toList ++ "42".toList, "golang".toList,
          "go".toList, "42".toList]) ∧
      Match "https://github.com/golang/go/issues/00042".toList = some issuePattern ∧
      issuePattern.Pattern.FindStringSubmatch 3 "https://github.com/golang/go/issues/00042".toList =
        some ["https://github.com/golang/go/issues/00042".toList, "golang".toList, "go".toList,
          "00042".toList] ∧
      digitsValue "00042".toList = digitsValue "42".toList ∧ digitsValue "42".toList = 42 :=
  ⟨⟨by decide, by decide⟩,
    (Match_leading_zeros "https://github.com/golang/go/issues/".toList "42".toList "golang".toList
      "go".toList 3 issuePattern (by decide) (by decide)).1,
    (Match_leading_zeros "https://github.com/golang/go/issues/".toList "42".toList "golang".toList
      "go".toList 3 issuePattern (by decide) (by decide)).2.1,
    (Match_leading_zeros "https://github.com/golang/go/issues/".toList "42".toList "golang".toList
      "go".toList 3 issuePattern (by decide) (by decide)).2.2.1, by decide⟩

/-! ## The default configuration of `types.go` -/

/-- C21: the configuration returned by `DefaultConfig` of `config/types.go`
does not pass its own `Validate`, which returns a `ValidationError` with `Field`
`github_token`; and it passes `Validate` as soon as `GitHubToken` alone is set
to any non-empty string, the default `Output.Format`, `markdown`, being
non-empty. -/
theorem DefaultConfig_Validate (token : String) (ht : token ≠ "") :
    ConfigTypes.DefaultConfig.Validate =
        some { Field := "github_token", Message := "GitHub token is required" } ∧
      (∃ e, ConfigTypes.DefaultConfig.Validate = some e ∧ e.Field = "github_token") ∧
      ConfigTypes.DefaultConfig.GitHubToken = "" ∧
      ConfigTypes.DefaultConfig.Output.Format = "markdown" ∧
      ConfigTypes.DefaultConfig.Output.Format ≠ "" ∧
      ({ ConfigTypes.DefaultConfig with GitHubToken := token }).Validate = none := by
  refine ⟨rfl, ⟨_, rfl, rfl⟩, rfl, rfl, by decide, ?_⟩
  have hf : ConfigTypes.DefaultConfig.Output.Format ≠ "" := by decide
  simp only [ConfigTypes.Config.Validate, ht, hf, if_false]

theorem DefaultConfig_Validate_witness :
    ("ghp_example" : String) ≠ "" ∧
      ConfigTypes.DefaultConfig.Validate =
        some { Field := "github_token", Message := "GitHub token is required" } ∧
      ({ ConfigTypes.DefaultConfig with GitHubToken := "ghp_example" }).Validate = none :=
  ⟨by decide, (DefaultConfig_Validate "ghp_example" (by decide)).1,
    (DefaultConfig_Validate "ghp_example" (by decide)).2.2.2.2.2⟩

end Issue2md
